import Mathlib

/-!
# uPMU sender daemon (`sender.c`): a shallow embedding and its verified properties

The daemon watches a directory tree, ships every completed `.dat` file to a
collector over TCP with a small framed protocol, and deletes the local copy when
the collector echoes the message id.

Conventions of the embedding.

* A C string is the list of its bytes before the terminating zero byte; bytes are
  natural numbers. `cstr` turns a Lean string literal into such a list.
* `uint32_t` values are natural numbers reduced modulo `2^32` wherever the C code
  can wrap; `int` and `int32_t` values are integers.
* System calls are answered by an explicit environment: a script of results that
  the code consumes in order. When a script is used up, the next call of that
  kind fails (`write`, `read`) or reports end of file (`fread`).
* Every function returns, besides its C result, the list of the externally
  visible actions it performed, in program order (`Effect`).
-/

namespace UPMU

/-! ## Compile-time constants (`#define`s of `sender.c`) -/

/-- The maximum length of a full file path. -/
def FULLPATHLEN : Nat := 96
/-- The maximum length of a file or directory name. -/
def FILENAMELEN : Nat := 48
/-- Seconds to wait between subsequent tries to reconnect. -/
def TIMEDELAY : Nat := 10
/-- The number of failed attempts tolerated before the program exits. -/
def NUMFAILURES : Nat := 360
/-- The deepest slot of the watch table; the root directory is at depth 0. -/
def MAXDEPTH : Nat := 4
/-- The size of the portions into which each file is broken up. -/
def CHUNK_SIZE : Nat := 31560
/-- Seconds to wait before sending the last file of a live scan. -/
def LASTFILEWAIT : Nat := 240

/-! ## Bytes, strings and machine words -/

/-- The bytes of a string literal, as a C string without its terminator. -/
def cstr (s : String) : List Nat := s.toList.map Char.toNat

/-- The literal `".dat"`. -/
def dotDat : List Nat := [46, 100, 97, 116]

/-- Byte order of the machine the daemon runs on. -/
inductive Endian where
  | little
  | big
  deriving DecidableEq, Repr

/-- The four bytes that `*((uint32_t*) p) = v` stores at `p`. -/
def u32bytes (host : Endian) (v : Nat) : List Nat :=
  match host with
  | Endian.little => [v % 256, v / 256 % 256, v / 65536 % 256, v / 16777216 % 256]
  | Endian.big => [v / 16777216 % 256, v / 65536 % 256, v / 256 % 256, v % 256]

/-- The `uint32_t` value read back from (the first) four bytes of memory. -/
def dec32 (host : Endian) (bs : List Nat) : Nat :=
  let b := fun i => bs.getD i 0 % 256
  match host with
  | Endian.little => b 0 + 256 * b 1 + 65536 * b 2 + 16777216 * b 3
  | Endian.big => b 3 + 256 * b 2 + 65536 * b 1 + 16777216 * b 0

/-- Conversion of a `uint32_t` value to `int32_t` (two's complement). -/
def toInt32 (v : Nat) : Int :=
  if v % 4294967296 < 2147483648 then ((v % 4294967296 : Nat) : Int)
  else ((v % 4294967296 : Nat) : Int) - 4294967296

/-- The function `roundUp4`: `(input + 3) & 0xFFFFFFFCu` in `uint32_t` arithmetic. -/
def roundUp4 (input : Nat) : Nat :=
  ((input + 3) % 4294967296) &&& 0xFFFFFFFC

/-- The function `strcmp`: the sign of the byte-wise comparison of two C strings
(the end of a string compares as the zero byte). -/
def strcmp : List Nat → List Nat → Int
  | [], [] => 0
  | [], _ :: _ => -1
  | _ :: _, [] => 1
  | a :: as, b :: bs => if a = b then strcmp as bs else if a < b then -1 else 1

/-- The C string found at an address: the bytes up to the first zero byte. -/
def readCStr (mem : List Nat) : List Nat := mem.takeWhile (fun b => b != 0)

/-- The C string at `filepath + strlen(filepath) - 4`. For a path of fewer than
four bytes that address lies in front of the string: `before i` is the byte stored
`i + 1` places in front of `filepath[0]`. -/
def substr (before : Nat → Nat) (filepath : List Nat) : List Nat :=
  if 4 ≤ filepath.length then filepath.drop (filepath.length - 4)
  else readCStr (((List.range (4 - filepath.length)).reverse.map before) ++ filepath)

/-! ## Observable actions -/

/-- The externally visible actions of the daemon. -/
inductive Effect where
  /-- A call `fopen(path, "rb")`. -/
  | fopen (path : List Nat)
  /-- A `write` on the socket that accepted `bytes`. -/
  | write (fd : Int) (bytes : List Nat)
  /-- A `read` on the socket that delivered `bytes`. -/
  | recv (fd : Int) (bytes : List Nat)
  /-- A call `unlink(path)`. -/
  | unlink (path : List Nat)
  /-- A call `close_connection(fd)`. -/
  | close_connection (fd : Int)
  /-- A call `sleep(secs)`. -/
  | sleep (secs : Nat)
  /-- A call of `make_socket` and the value it returned. -/
  | make_socket (result : Int)
  /-- The message that the reconnect ceiling was reached, with `numreconnects`. -/
  | give_up (numreconnects : Int)
  /-- A call `safe_exit(arg)`: the process ends. -/
  | safe_exit (arg : Int)
  /-- A call of `send_until_success` for `path` by a scan at `depth`
  (`none`: by the event loop). -/
  | send (depth : Option Int) (path : List Nat)
  /-- The entry into `processdir(path, _, _, depth, live)`. -/
  | scan (path : List Nat) (depth : Int) (live : Bool)
  /-- A read of `children[slot]`. -/
  | slot_read (slot : Int)
  /-- A write of `children[slot]`. -/
  | slot_write (slot : Int)
  /-- A call `inotify_add_watch(fd, path, ...)` that returned `wd`. -/
  | add_watch (path : List Nat) (wd : Int)
  /-- A call `inotify_rm_watch(fd, wd)`. -/
  | rm_watch (wd : Int)
  /-- A call `remove_dir(path)`. -/
  | remove_dir (path : List Nat)
  /-- The warning that a new directory lies past the maximum depth. -/
  | warn_depth
  deriving DecidableEq, Repr

/-! ## `send_file` -/

/-- The answers of the operating system to one call of `send_file`. -/
structure SendEnv where
  /-- Whether `fopen` succeeds. -/
  fopen_ok : Bool
  /-- The value returned by `ftell` at the end of the file. -/
  ftell : Int
  /-- Whether `malloc(CHUNK_SIZE)` succeeds. -/
  malloc_ok : Bool
  /-- The data delivered by the successive `fread` calls. -/
  freads : List (List Nat)
  /-- The successive `write` results: `none` an error, `some k` up to `k` bytes accepted. -/
  writes : List (Option Nat)
  /-- The successive results of `read` on the socket: `none` an error, `some bs` the bytes. -/
  reads : List (Option (List Nat))
  /-- The string that the local `filepath` designates once a store of the header
  build has landed outside `data`: such a store hits the frame of `send_file`,
  and what it changes there depends on the layout of the frame. -/
  stray_path : List Nat

/-- The result of `send_file`: the returned value (`none` when the process
exited inside the call), the value of `sendid` afterwards and the actions performed. -/
structure SendResult where
  ret : Option Int
  sendid : Nat
  trace : List Effect
  deriving DecidableEq, Repr

/-- The writes that build the frame header in `data`, as (offset, bytes) in
program order; `strcpy` also stores the terminating zero byte. -/
def header_stores (host : Endian) (sendid size size_serial length size_word : Nat)
    (filepath serialNum : List Nat) : List (Nat × List Nat) :=
  [ (0, u32bytes host sendid),
    (4, u32bytes host size),
    (8, u32bytes host size_serial),
    (12, u32bytes host length),
    (16, filepath ++ [0]),
    (16 + size_word, serialNum ++ [0]) ]

/-- Storing a block of bytes into a buffer at an offset; only the part that lies
inside the buffer is kept. -/
def blit (buf : List Nat) (st : Nat × List Nat) : List Nat :=
  buf.take st.1 ++ st.2.take (buf.length - st.1) ++ buf.drop (st.1 + st.2.length)

/-- The size of the header buffer, `16 + size_word + size_serial_word` (`uint32_t`). -/
def header_size (filepath serialNum : List Nat) : Nat :=
  (16 + roundUp4 (filepath.length % 4294967296)
      + roundUp4 (serialNum.length % 4294967296)) % 4294967296

/-- The contents of `data` after `memset` and the stores of `header_stores`. -/
def header_data (host : Endian) (sendid length : Nat) (filepath serialNum : List Nat) :
    List Nat :=
  (header_stores host sendid (filepath.length % 4294967296)
      (serialNum.length % 4294967296) length
      (roundUp4 (filepath.length % 4294967296)) filepath serialNum).foldl blit
    (List.replicate (header_size filepath serialNum) 0)

/-- The indices of `data` that one store of `header_stores` writes. -/
def store_indices (st : Nat × List Nat) : List Nat :=
  (List.range st.2.length).map (fun k => st.1 + k)

/-- The indices of `data` written while `send_file` builds the header: those of
the `memset` over the whole buffer, then those of each store of `header_stores`
(the `strcpy` stores include the terminating zero byte). -/
def header_write_indices (host : Endian) (sendid length : Nat)
    (filepath serialNum : List Nat) : List Nat :=
  List.range (header_size filepath serialNum) ++
    ((header_stores host sendid (filepath.length % 4294967296)
      (serialNum.length % 4294967296) length
      (roundUp4 (filepath.length % 4294967296)) filepath serialNum).map store_indices).flatten

/-- Whether a store of the header build lands outside `data`, at an index from
`header_size` on. -/
def header_overflow (host : Endian) (sendid length : Nat)
    (filepath serialNum : List Nat) : Bool :=
  (header_write_indices host sendid length filepath serialNum).any
    (fun i => decide (header_size filepath serialNum ≤ i))

/-- The loop `while (dataleft > 0) { datawritten = write(fd, dest, dataleft); ... }`.
Returns whether all writes succeeded, the actions, and the unused write results. -/
def write_all (fd : Int) : List Nat → Int → List (Option Nat) →
    Bool × List Effect × List (Option Nat)
  | _, dataleft, [] => (decide (dataleft ≤ 0), [], [])
  | dest, dataleft, w :: rest =>
    if dataleft ≤ 0 then (true, [], w :: rest)
    else
      match w with
      | none => (false, [], rest)
      | some k =>
        let datawritten := min k dataleft.toNat
        let r := write_all fd (dest.drop datawritten) (dataleft - datawritten) rest
        (r.1, Effect.write fd (dest.take datawritten) :: r.2.1, r.2.2)

/-- The loop `while (totalread != length)` that streams the file content.
Returns `none` when the whole content was sent, else the value `send_file` returns. -/
def send_content (fd : Int) (length : Nat) : List (List Nat) → Nat → List (Option Nat) →
    Option Int × List Effect
  | [], totalread, _ => if totalread = length then (none, []) else (some 1, [])
  | chunk :: more, totalread, ws =>
    if totalread = length then (none, [])
    else
      let data := chunk.take CHUNK_SIZE
      let dataread := data.length
      let totalread := (totalread + dataread) % 4294967296
      if dataread ≠ CHUNK_SIZE ∧ totalread ≠ length then (some 1, [])
      else
        let w := write_all fd data dataread ws
        if w.1 then
          let r := send_content fd length more totalread w.2.2
          (r.1, w.2.1 ++ r.2)
        else (some (-1), w.2.1)

/-- The loop that reads the confirmation into `response`; `stored` are the bytes
stored from the start of `response` so far, so that `dataleft = 4 - stored.length`.
Every `read` asks for 4 bytes, so bytes may be stored past the fourth; they are
no part of `response`. Returns the bytes stored when the loop ends normally. -/
def read_confirmation (fd : Int) : List Nat → List (Option (List Nat)) →
    Option (List Nat) × List Effect
  | stored, [] => if 4 ≤ stored.length then (some stored, []) else (none, [])
  | stored, r :: rest =>
    if 4 ≤ stored.length then (some stored, [])
    else
      match r with
      | none => (none, [])
      | some bs =>
        let got := bs.take 4
        if got.length = 0 then (none, [])
        else
          let x := read_confirmation fd (stored ++ got) rest
          (x.1, Effect.recv fd got :: x.2)

/-- The value of `sendid` after `sendid++` and the wrap test that follows it. -/
def next_sendid (sendid : Nat) : Nat :=
  if (sendid + 1) % 4294967296 = 0xFFFFFFFF then 1 else (sendid + 1) % 4294967296

/-- The path that `unlink` receives at the end of `send_file`: `filepath`, unless
a store of the header build fell outside `data`; then it is whatever the local
`filepath` designates after that store. -/
def unlink_path (host : Endian) (sendid length : Nat) (filepath serialNum : List Nat)
    (env : SendEnv) : List Nat :=
  if header_overflow host sendid length filepath serialNum then env.stray_path else filepath

/-- The function `send_file(socket_descriptor, filepath)`, with the globals `serialNum` and
`sendid` passed explicitly. The bytes sent are those of `data`; a byte that the
header build stores past the end of `data` is followed only in what it does to
the path handed to `unlink` (`unlink_path`). -/
def send_file (host : Endian) (serialNum : List Nat) (sendid : Nat)
    (socket_descriptor : Int) (before : Nat → Nat) (filepath : List Nat)
    (env : SendEnv) : SendResult :=
  if strcmp (substr before filepath) dotDat ≠ 0 then ⟨some 0, sendid, []⟩
  else if env.fopen_ok = false then ⟨some 1, sendid, [Effect.fopen filepath]⟩
  else
    let length := (env.ftell % 4294967296).toNat
    let data := header_data host sendid length filepath serialNum
    let dataleft := toInt32 (header_size filepath serialNum)
    let h := write_all socket_descriptor data dataleft env.writes
    if h.1 = false then ⟨some (-1), sendid, Effect.fopen filepath :: h.2.1⟩
    else if env.malloc_ok = false then
      ⟨none, sendid, Effect.fopen filepath :: h.2.1 ++ [Effect.safe_exit 1]⟩
    else
      let c := send_content socket_descriptor length env.freads 0 h.2.2
      match c.1 with
      | some v => ⟨some v, sendid, Effect.fopen filepath :: h.2.1 ++ c.2⟩
      | none =>
        let x := read_confirmation socket_descriptor [] env.reads
        match x.1 with
        | none => ⟨some (-1), sendid, Effect.fopen filepath :: h.2.1 ++ c.2 ++ x.2⟩
        | some stored =>
          let response := dec32 host (stored.take 4)
          ⟨some 0, next_sendid sendid,
            Effect.fopen filepath :: h.2.1 ++ c.2 ++ x.2 ++
              (if response ≠ sendid then []
                else [Effect.unlink (unlink_path host sendid length filepath serialNum env)]) ++
              [Effect.sleep 1]⟩

/-! ## `send_until_success` -/

/-- The globals of the transport session: `sendid`, `socket_des`, `connected`. -/
structure Session where
  sendid : Nat
  socket_des : Int
  connected : Bool
  deriving DecidableEq, Repr

/-- The environment of one iteration of the retry loop: the answers to the
`send_file` call and, for the case that it fails in transport, what the
`make_socket` call that follows does (`none`: `socket()` fails and the process
exits; `some v`: it returns `v`, which is `-1` when the connection failed). -/
structure Attempt where
  env : SendEnv
  socket : Option Int

/-- How a call ended. -/
inductive Outcome where
  /-- The function returned the value. -/
  | returned (v : Int)
  /-- The process exited inside the call. -/
  | exited
  /-- The recursion bound of the embedding was reached. -/
  | out_of_fuel
  deriving DecidableEq, Repr

/-- The result of `send_until_success`. -/
structure RunResult where
  outcome : Outcome
  session : Session
  trace : List Effect
  deriving DecidableEq, Repr

/-- The loop of `send_until_success`; iteration `i` (counted from `0`) is
answered by `attempts i`, and `numreconnects` is the C variable of that name. -/
def send_loop (host : Endian) (serialNum : List Nat) (before : Nat → Nat)
    (filepath : List Nat) (attempts : Nat → Attempt) :
    Nat → Nat → Int → Session → RunResult
  | 0, _, _, s => ⟨Outcome.out_of_fuel, s, []⟩
  | fuel + 1, i, numreconnects, s =>
    let r := send_file host serialNum s.sendid s.socket_des before filepath (attempts i).env
    match r.ret with
    | none => ⟨Outcome.exited, ⟨r.sendid, s.socket_des, s.connected⟩, r.trace⟩
    | some result =>
      if result = -1 then
        let numreconnects := numreconnects + 1
        if numreconnects ≥ (NUMFAILURES : Int) then
          ⟨Outcome.exited, ⟨r.sendid, s.socket_des, s.connected⟩,
            r.trace ++ [Effect.give_up numreconnects, Effect.safe_exit 1]⟩
        else
          let closing :=
            if s.connected then [Effect.close_connection s.socket_des] else []
          match (attempts i).socket with
          | none =>
            ⟨Outcome.exited, ⟨r.sendid, s.socket_des, false⟩,
              r.trace ++ closing ++ [Effect.sleep TIMEDELAY, Effect.safe_exit 1]⟩
          | some fd =>
            let x := send_loop host serialNum before filepath attempts fuel (i + 1)
              numreconnects ⟨r.sendid, fd, false⟩
            ⟨x.outcome, x.session,
              r.trace ++ closing ++ [Effect.sleep TIMEDELAY, Effect.make_socket fd] ++ x.trace⟩
      else ⟨Outcome.returned result, ⟨r.sendid, s.socket_des, true⟩, r.trace⟩

/-- The function `send_until_success(&socket_des, filepath)`: the loop started with
`numreconnects = -1`. The loop body runs at most `NUMFAILURES + 1` times. -/
def send_until_success (host : Endian) (serialNum : List Nat) (before : Nat → Nat)
    (filepath : List Nat) (attempts : Nat → Attempt) (s : Session) : RunResult :=
  send_loop host serialNum before filepath attempts (NUMFAILURES + 1) 0 (-1) s

/-! ## Reading a trace -/

/-- The paths on which `unlink` was called, in order. -/
def unlinks : List Effect → List (List Nat)
  | [] => []
  | Effect.unlink p :: t => p :: unlinks t
  | _ :: t => unlinks t

/-- The bytes delivered by the socket, in order. -/
def received : List Effect → List Nat
  | [] => []
  | Effect.recv _ bs :: t => bs ++ received t
  | _ :: t => received t

/-- The bytes accepted by the socket, in order. -/
def written : List Effect → List Nat
  | [] => []
  | Effect.write _ bs :: t => bs ++ written t
  | _ :: t => written t

/-- The paths on which `fopen` was called, in order. -/
def opened : List Effect → List (List Nat)
  | [] => []
  | Effect.fopen p :: t => p :: opened t
  | _ :: t => opened t

/-- The values of `numreconnects` reported when the retry ceiling ended the process. -/
def give_ups : List Effect → List Int
  | [] => []
  | Effect.give_up n :: t => n :: give_ups t
  | _ :: t => give_ups t

/-- The values returned by the `make_socket` calls, in order. -/
def made_sockets : List Effect → List Int
  | [] => []
  | Effect.make_socket v :: t => v :: made_sockets t
  | _ :: t => made_sockets t

/-! ## Sequences of `send_file` calls -/

/-- One call of `send_file`: its arguments and the answers of the operating system. -/
structure Call where
  socket_descriptor : Int
  before : Nat → Nat
  filepath : List Nat
  env : SendEnv

/-- The value of `sendid` after a sequence of `send_file` calls, started at `sendid`. -/
def run_calls (host : Endian) (serialNum : List Nat) : Nat → List Call → Nat
  | sendid, [] => sendid
  | sendid, c :: cs =>
    run_calls host serialNum
      (send_file host serialNum sendid c.socket_descriptor c.before c.filepath c.env).sendid cs

/-- The initial value of the global `sendid`. -/
def sendid_init : Nat := 1

/-! ## The frame header as the specification describes it -/

/-- The frame header in the words of the specification: the four 32-bit fields
message id, path length, serial length and content length, then the path and the
serial number, each followed by `pad` zero bytes of its own. -/
def frame_header (host : Endian) (messageId contentLen : Nat) (path serial : List Nat)
    (padPath padSerial : Nat) : List Nat :=
  u32bytes host messageId ++ u32bytes host path.length ++ u32bytes host serial.length ++
    u32bytes host contentLen ++ path ++ List.replicate padPath 0 ++
    serial ++ List.replicate padSerial 0

/-! ## Concrete runs used as examples -/

/-- The run of scenario 4 of the specification: message id 2 is sent and the
collector answers 999. -/
def mismatch_env : SendEnv :=
  ⟨true, 3, true, [[7, 8, 9]], [some 100, some 100], [some [231, 3, 0, 0]], []⟩

/-- A run in which every system call succeeds and the collector echoes the id 1.
Where a store falls outside `data`, the local `filepath` designates the empty
string afterwards. -/
def matched_env : SendEnv :=
  ⟨true, 3, true, [[7, 8, 9]], [some 100, some 100], [some [1, 0, 0, 0]], []⟩

/-- The memory in front of the string `"dat"` when it is the tail of `".dat"`:
the byte just before it is `.` (46). -/
def before_dot : Nat → Nat := fun i => if i = 0 then 46 else 0

/-- An attempt in which `fopen` works, the first `write` on the socket fails, and
the `make_socket` call that follows succeeds with descriptor 7. -/
def drop_then_connect : Attempt :=
  ⟨⟨true, 3, true, [[7, 8, 9]], [none], [], []⟩, some 7⟩

/-- An attempt in which every system call succeeds and the collector echoes 1. -/
def matched_attempt : Attempt := ⟨matched_env, some 7⟩

/-- Two attempts that lose the connection, then one that is confirmed. -/
def two_drops_then_match : Nat → Attempt :=
  fun i => if i < 2 then drop_then_connect else matched_attempt

/-! ## The watch table and the directory scan -/

/-- One entry of `children`: the watch handle `fd` (`-1`: none) and the path. -/
structure Slot where
  fd : Int
  path : List Nat
  deriving DecidableEq, Repr

/-- The contents of `children` by index. The array itself is the indices
`0 .. MAXDEPTH`; any other index stands for the memory that an access
`children[i]` with that `i` touches. -/
abbrev Table := Int → Slot

/-- The assignment `children[i] = s`. -/
def set_slot (t : Table) (i : Int) (s : Slot) : Table :=
  fun j => if j = i then s else t j

/-- What `stat` reports for a directory entry. -/
inductive Kind where
  /-- The call of `stat` fails. -/
  | stat_fails
  /-- The mode satisfies `S_ISDIR`. -/
  | directory
  /-- The mode satisfies `S_ISREG`. -/
  | regular
  /-- Neither a directory nor a regular file. -/
  | other
  deriving DecidableEq, Repr

/-- An entry returned by `readdir`, with what `stat` says about it. -/
structure DirEnt where
  d_name : List Nat
  kind : Kind
  deriving DecidableEq, Repr

/-- The answers of the file system, of inotify and of the transport during one
scan or one event: `listing p` are the entries of directory `p` in `readdir`
order (`none`: `opendir` fails), `add_watch p` is the value of
`inotify_add_watch` on `p`, `rm_watch wd` tells whether `inotify_rm_watch`
returns 0, and `send p` is the value `send_until_success` returns for `p`
(`none`: the process exits inside it). Memory allocation is taken to succeed. -/
structure Sys where
  listing : List Nat → Option (List DirEnt)
  add_watch : List Nat → Int
  rm_watch : Int → Bool
  send : List Nat → Option Int

/-- The result of a scan or of handling an event. -/
structure ScanResult where
  outcome : Outcome
  children : Table
  trace : List Effect

/-- The function `file_entry_comparator`: `strcmp` on the two records. -/
def file_entry_comparator (f1 f2 : List Nat) : Int := strcmp f1 f2

/-- The call `qsort(arr, n, FILENAMELEN, file_entry_comparator)`: the records in ascending
order of the comparator (as an insertion sort; the order is total and two
records that compare equal are the same string, so every sorting routine
yields this array). -/
def qsort (arr : List (List Nat)) : List (List Nat) :=
  arr.insertionSort (fun a b => file_entry_comparator a b ≤ 0)

/-- The `readdir` loop of `processdir`: the names collected into `filearr` and
`subdirarr` (a directory name is stored with `/` appended), or `none` when an
oversize name or path makes `processdir` return -1. -/
def read_entries (dirpath : List Nat) :
    List DirEnt → List (List Nat) → List (List Nat) →
    Option (List (List Nat) × List (List Nat))
  | [], filearr, subdirarr => some (filearr, subdirarr)
  | e :: rest, filearr, subdirarr =>
    if strcmp e.d_name (cstr ".") ≠ 0 ∧ strcmp e.d_name (cstr "..") ≠ 0 then
      if dirpath.length + e.d_name.length + 2 > FULLPATHLEN then none
      else
        match e.kind with
        | Kind.stat_fails => read_entries dirpath rest filearr subdirarr
        | Kind.directory =>
          if e.d_name.length ≥ FILENAMELEN - 1 then none
          else read_entries dirpath rest filearr (subdirarr ++ [e.d_name ++ cstr "/"])
        | Kind.regular =>
          if e.d_name.length ≥ FILENAMELEN then none
          else read_entries dirpath rest (filearr ++ [e.d_name]) subdirarr
        | Kind.other => read_entries dirpath rest filearr subdirarr
    else read_entries dirpath rest filearr subdirarr

/-- The loop over the sorted files. Returns `false` when the process exited
inside `send_until_success`. -/
def send_files (sys : Sys) (dirpath : List Nat) (depth : Int) (addwatchtosubs : Bool) :
    List (List Nat) → Bool × List Effect
  | [] => (true, [])
  | f :: rest =>
    let fullpath := dirpath ++ f
    let wait :=
      if addwatchtosubs ∧ rest = [] then [Effect.sleep LASTFILEWAIT] else []
    match sys.send fullpath with
    | none => (false, wait ++ [Effect.send (some depth) fullpath])
    | some _ =>
      let r := send_files sys dirpath depth addwatchtosubs rest
      (r.1, wait ++ [Effect.send (some depth) fullpath] ++ r.2)

/-- The loop over the sorted subdirectories; `self` is the recursive call. -/
def scan_subdirs (sys : Sys) (self : List Nat → Int → Bool → Table → ScanResult)
    (dirpath : List Nat) (depth : Int) (addwatchtosubs : Bool) :
    List (List Nat) → Table → ScanResult
  | [], t => ⟨Outcome.returned 0, t, []⟩
  | d :: rest, t =>
    let fullpath := dirpath ++ d
    let last : Bool := addwatchtosubs && rest.isEmpty
    let wd := sys.add_watch fullpath
    let t1 := if last then set_slot t depth ⟨wd, fullpath⟩ else t
    let tr1 :=
      if last then [Effect.add_watch fullpath wd, Effect.slot_write depth] else []
    let r := self fullpath (depth + 1) last t1
    match r.outcome with
    | Outcome.returned result =>
      if result < 0 then ⟨Outcome.returned (-1), r.children, tr1 ++ r.trace⟩
      else
        let tr2 := if last then [] else [Effect.remove_dir fullpath]
        let x := scan_subdirs sys self dirpath depth addwatchtosubs rest r.children
        ⟨x.outcome, x.children, tr1 ++ r.trace ++ tr2 ++ x.trace⟩
    | o => ⟨o, r.children, tr1 ++ r.trace⟩

/-- The body of `processdir`, with the recursive call as a parameter. -/
def processdir_body (sys : Sys) (self : List Nat → Int → Bool → Table → ScanResult)
    (dirpath : List Nat) (depth : Int) (addwatchtosubs : Bool) (t : Table) : ScanResult :=
  let enter := Effect.scan dirpath depth addwatchtosubs
  if dirpath.length ≥ FULLPATHLEN - 5 then ⟨Outcome.returned (-1), t, [enter]⟩
  else
    match sys.listing dirpath with
    | none => ⟨Outcome.returned (-1), t, [enter]⟩
    | some entries =>
      match read_entries dirpath entries [] [] with
      | none => ⟨Outcome.returned (-1), t, [enter]⟩
      | some arrs =>
        let s := send_files sys dirpath depth addwatchtosubs (qsort arrs.1)
        if s.1 = false then ⟨Outcome.exited, t, enter :: s.2⟩
        else
          let r := scan_subdirs sys self dirpath depth addwatchtosubs (qsort arrs.2) t
          ⟨r.outcome, r.children, enter :: s.2 ++ r.trace⟩

/-- The function `processdir(dirpath, &socket_des, inotify_fd, depth, addwatchtosubs)`; `fuel`
bounds the nesting of the recursion. Every call lengthens `dirpath`, and a
path of `FULLPATHLEN - 5` bytes is rejected, so `FULLPATHLEN` is always enough. -/
def processdir (sys : Sys) : Nat → List Nat → Int → Bool → Table → ScanResult
  | 0 => fun _ _ _ t => ⟨Outcome.out_of_fuel, t, []⟩
  | fuel + 1 => processdir_body sys (processdir sys fuel)

/-- The paths handed to `send_until_success` by the scan running at `depth`. -/
def sent_at (depth : Int) : List Effect → List (List Nat)
  | [] => []
  | Effect.send (some d) p :: t => if d = depth then p :: sent_at depth t else sent_at depth t
  | _ :: t => sent_at depth t

/-- The paths of the `processdir` calls entered with depth argument `depth`. -/
def scans_at (depth : Int) : List Effect → List (List Nat)
  | [] => []
  | Effect.scan p d _ :: t => if d = depth then p :: scans_at depth t else scans_at depth t
  | _ :: t => scans_at depth t

/-- The names of the regular files of a listing, in listing order. -/
def file_names (entries : List DirEnt) : List (List Nat) :=
  (entries.filter (fun e => decide (e.kind = Kind.regular ∧ e.d_name ≠ cstr "." ∧
    e.d_name ≠ cstr ".."))).map DirEnt.d_name

/-- The names of the subdirectories of a listing, in listing order. -/
def subdir_names (entries : List DirEnt) : List (List Nat) :=
  (entries.filter (fun e => decide (e.kind = Kind.directory ∧ e.d_name ≠ cstr "." ∧
    e.d_name ≠ cstr ".."))).map DirEnt.d_name

/-- Sorting names ascending by byte-wise comparison, as the specification says. -/
def sort_names (names : List (List Nat)) : List (List Nat) :=
  names.insertionSort (fun a b => strcmp a b ≤ 0)

/-! ## The event loop of `main` -/

/-- The mask bit `IN_CLOSE_WRITE`. -/
def IN_CLOSE_WRITE : Nat := 0x00000008
/-- The mask bit `IN_CREATE`. -/
def IN_CREATE : Nat := 0x00000100
/-- The mask bit `IN_ISDIR`. -/
def IN_ISDIR : Nat := 0x40000000

/-- An inotify event record. -/
structure Event where
  wd : Int
  mask : Nat
  len : Nat
  name : List Nat
  deriving DecidableEq, Repr

/-- The loop `for (i = MAXDEPTH; i >= 0; i--) if (children[i].fd == ev->wd) break;`
run over the indices below `k`: the final value of `i` and the slots read. -/
def find_slot (t : Table) (wd : Int) : Nat → Int × List Effect
  | 0 => (-1, [])
  | k + 1 =>
    if (t k).fd = wd then ((k : Int), [Effect.slot_read k])
    else ((find_slot t wd k).1, Effect.slot_read k :: (find_slot t wd k).2)

/-- The loop `for (j = MAXDEPTH; j >= i; j--)` that removes the watches from
depth `i` on, run over the indices below `k`. -/
def teardown (sys : Sys) (i : Int) : Nat → Table → Table × List Effect
  | 0, t => (t, [])
  | k + 1, t =>
    if (k : Int) < i then (t, [])
    else if (t k).fd ≠ -1 then
      let t1 := if sys.rm_watch (t k).fd then set_slot t k ⟨-1, (t k).path⟩ else t
      let w := if sys.rm_watch (t k).fd then [Effect.slot_write k] else []
      ((teardown sys i k t1).1,
        [Effect.slot_read k, Effect.rm_watch (t k).fd] ++ w ++
          [Effect.remove_dir (t k).path] ++ (teardown sys i k t1).2)
    else ((teardown sys i k t).1, Effect.slot_read k :: (teardown sys i k t).2)

/-- What the outcome of `processdir` means for the event loop: whatever it
returns, the loop goes on to the next event. -/
def keep_running : Outcome → Outcome
  | Outcome.returned _ => Outcome.returned 0
  | o => o

/-- The body of the loop `while (index < rlen)` of `main` for one event. The
outcome is `returned 0` when the loop goes on to the next event. -/
def handle_event (sys : Sys) (ev : Event) (t : Table) : ScanResult :=
  if ev.len = 0 then ⟨Outcome.returned 0, t, []⟩
  else if IN_CREATE &&& ev.mask ≠ 0 ∧ IN_ISDIR &&& ev.mask ≠ 0 then
    let f := find_slot t ev.wd (MAXDEPTH + 1)
    let i := f.1 + 1
    let warn := if i > (MAXDEPTH : Int) then [Effect.warn_depth] else []
    let parentname := (t (i - 1)).path
    let fullname := parentname ++ ev.name ++ cstr "/"
    if strcmp fullname (t i).path ≠ 0 then
      let td := teardown sys i (MAXDEPTH + 1) t
      let wd := sys.add_watch fullname
      let t2 := set_slot td.1 i ⟨wd, fullname⟩
      let r := processdir sys FULLPATHLEN fullname (i + 1) true t2
      ⟨keep_running r.outcome, r.children,
        f.2 ++ warn ++ [Effect.slot_read (i - 1), Effect.slot_read i] ++ td.2 ++
          [Effect.slot_write i, Effect.add_watch fullname wd] ++ r.trace⟩
    else
      ⟨Outcome.returned 0, t,
        f.2 ++ warn ++ [Effect.slot_read (i - 1), Effect.slot_read i]⟩
  else if IN_CLOSE_WRITE &&& ev.mask ≠ 0 ∧ ¬ (IN_ISDIR &&& ev.mask ≠ 0) then
    if (t MAXDEPTH).fd = ev.wd then
      let fullname := (t MAXDEPTH).path ++ ev.name
      match sys.send fullname with
      | none =>
        ⟨Outcome.exited, t,
          [Effect.slot_read MAXDEPTH, Effect.send none fullname]⟩
      | some _ =>
        ⟨Outcome.returned 0, t,
          [Effect.slot_read MAXDEPTH, Effect.send none fullname]⟩
    else ⟨Outcome.returned 0, t, [Effect.slot_read MAXDEPTH]⟩
  else ⟨Outcome.returned 0, t, []⟩

/-- The paths handed to `send_until_success`, by scans and by the event loop. -/
def sends : List Effect → List (List Nat)
  | [] => []
  | Effect.send _ p :: t => p :: sends t
  | _ :: t => sends t

/-- The depth of the active slot of greatest depth among the slots below `k`
(a slot is active when its handle is not `-1`). -/
def deepest_active (t : Table) : Nat → Option Nat
  | 0 => none
  | k + 1 => if (t k).fd ≠ -1 then some k else deepest_active t k

/-! ## Concrete file systems used as examples -/

/-- A directory `/r/` with two subdirectories, listed as `a` and `a.b`, both empty,
and two regular files listed as `x.dat` and `a.dat`. -/
def sys_two_dirs : Sys :=
  { listing := fun p =>
      if p = cstr "/r/" then
        some [⟨cstr "x.dat", Kind.regular⟩, ⟨cstr "a", Kind.directory⟩,
          ⟨cstr "a.dat", Kind.regular⟩, ⟨cstr "a.b", Kind.directory⟩]
      else if p = cstr "/r/a/" ∨ p = cstr "/r/a.b/" then some []
      else none
    add_watch := fun _ => 3
    rm_watch := fun _ => true
    send := fun _ => some 0 }

/-- A watch table as `main` has it after start-up on an empty root `/r/`:
slots 0 to 3 as the initialisation loop and the root watch leave them. -/
def table_root : Table :=
  fun i => if i = 0 then ⟨1, cstr "/r/"⟩
    else if 1 ≤ i ∧ i ≤ 3 then ⟨-1, []⟩ else ⟨0, []⟩

/-- A watch table with a live chain down to depth `MAXDEPTH`; the memory
around the array holds zero bytes. -/
def table_full : Table :=
  fun i => if i = 0 then ⟨1, cstr "/r/"⟩
    else if i = 1 then ⟨2, cstr "/r/a/"⟩
    else if i = 2 then ⟨3, cstr "/r/a/b/"⟩
    else if i = 3 then ⟨4, cstr "/r/a/b/c/"⟩
    else if i = 4 then ⟨5, cstr "/r/a/b/c/d/"⟩
    else ⟨0, []⟩

/-- A file system in which the new directory `/r/a/b/c/d/e/` exists and is empty. -/
def sys_deep : Sys :=
  { listing := fun p => if p = cstr "/r/a/b/c/d/e/" then some [] else none
    add_watch := fun _ => 6
    rm_watch := fun _ => true
    send := fun _ => some 0 }

/-- A trace in which every send comes from a scan at depth `d` or deeper and
every scan entered is deeper than `d`. -/
def Deeper (d : Int) (tr : List Effect) : Prop :=
  (∀ k, k < d → sent_at k tr = []) ∧ (∀ k, k ≤ d → scans_at k tr = [])

/-- A recursive call that either ran out of fuel at once or recorded its entry
first and only deeper sends and scans after it. -/
def WellTraced (self : List Nat → Int → Bool → Table → ScanResult) : Prop :=
  ∀ (path : List Nat) (d : Int) (live : Bool) (t : Table),
    ((self path d live t).outcome = Outcome.out_of_fuel ∧ (self path d live t).trace = []) ∨
    ∃ rest, (self path d live t).trace = Effect.scan path d live :: rest ∧ Deeper d rest

/-! ## The start of `main` -/

/-- The array `children` before `main` runs: static storage, all bytes zero. -/
def children_zero : Table := fun _ => ⟨0, []⟩

/-- The loop `for (i = 0; i < bound; i++) children[i].fd = -1;`. -/
def init_loop (t : Table) : Nat → Table
  | 0 => t
  | k + 1 => set_slot (init_loop t k) k ⟨-1, (init_loop t k k).path⟩

/-- The watch table right after the initialisation loop of `main`, which runs
with the bound `MAXDEPTH`. -/
def main_init : Table := init_loop children_zero MAXDEPTH

/-- The start of `main` from the initialisation loop to the end of the first
scan, for the directory `dir` given on the command line (not empty): the root
watch is stored in slot 0, with `/` appended to the path unless it ends in one,
and the root is scanned live at depth 1; a failed scan ends the process. -/
def main_start (sys : Sys) (dir : List Nat) : ScanResult :=
  let path := if dir.getLast? ≠ some 47 then dir ++ cstr "/" else dir
  let t1 := set_slot main_init 0 ⟨sys.add_watch dir, path⟩
  let r := processdir sys FULLPATHLEN path 1 true t1
  ⟨(match r.outcome with
      | Outcome.returned v => if v < 0 then Outcome.exited else Outcome.returned 0
      | o => o),
    r.children,
    [Effect.add_watch dir (sys.add_watch dir), Effect.slot_write 0] ++ r.trace⟩

/-- A file system with an empty root `/r/` in which the directory `/r/a/` appears,
empty as well. The root watch has handle 1, any other watch handle 2, and
`inotify_rm_watch` succeeds on exactly these two handles. -/
def sys_fresh : Sys :=
  { listing := fun p => if p = cstr "/r/" ∨ p = cstr "/r/a/" then some [] else none
    add_watch := fun p => if p = cstr "/r" then 1 else 2
    rm_watch := fun wd => decide (wd = 1 ∨ wd = 2)
    send := fun _ => some 0 }

/-! ## The subdirectory loop as the specification describes it -/

/-- The slots of `children` written, in order. -/
def slot_writes : List Effect → List Int
  | [] => []
  | Effect.slot_write k :: t => k :: slot_writes t
  | _ :: t => slot_writes t

/-- The paths on which `inotify_add_watch` was called, in order. -/
def watch_adds : List Effect → List (List Nat)
  | [] => []
  | Effect.add_watch p _ :: t => p :: watch_adds t
  | _ :: t => watch_adds t

/-- The paths on which `remove_dir` was called, in order. -/
def removed_dirs : List Effect → List (List Nat)
  | [] => []
  | Effect.remove_dir p :: t => p :: removed_dirs t
  | _ :: t => removed_dirs t

/-- The recursive calls of one scan of `dirpath` at `depth`: one per subdirectory
in sorted order, at depth `depth + 1`, live only for the last subdirectory of a
live scan; `ts` are the watch tables the calls start from. -/
def nested_calls (self : List Nat → Int → Bool → Table → ScanResult)
    (dirpath : List Nat) (depth : Int) (live : Bool) :
    List (List Nat) → List Table → List ScanResult
  | d :: rest, t :: ts =>
    self (dirpath ++ d) (depth + 1) (live && rest.isEmpty) t ::
      nested_calls self dirpath depth live rest ts
  | _, _ => []

/-- The actions of the subdirectory loop in the words of the specification, given
the actions of each recursive call: the last subdirectory of a live scan gets a
watch stored in slot `depth` before it is recursed into and is not removed; every
other subdirectory is recursed into and then `remove_dir` is attempted on it. -/
def subdir_plan (sys : Sys) (dirpath : List Nat) (depth : Int) (live : Bool) :
    List (List Nat) → List (List Effect) → List Effect
  | d :: rest, tr :: trs =>
    (if live = true ∧ rest = [] then
        [Effect.add_watch (dirpath ++ d) (sys.add_watch (dirpath ++ d)),
          Effect.slot_write depth] ++ tr
      else tr ++ [Effect.remove_dir (dirpath ++ d)]) ++
      subdir_plan sys dirpath depth live rest trs
  | _, _ => []

/-- A recursive call that writes no slot above its own depth argument, and that
in non-live mode writes no slot and adds no watch at all. -/
def SlotSafe (self : List Nat → Int → Bool → Table → ScanResult) : Prop :=
  ∀ (path : List Nat) (d : Int) (live : Bool) (t : Table),
    (∀ k, k ∈ slot_writes (self path d live t).trace → d ≤ k) ∧
    (∀ i, i < d → (self path d live t).children i = t i) ∧
    (live = false →
      slot_writes (self path d live t).trace = [] ∧
      watch_adds (self path d live t).trace = [] ∧
      ∀ i, (self path d live t).children i = t i)

/-! # Theorems -/

/-! ## Traces -/

theorem unlinks_append (a b : List Effect) : unlinks (a ++ b) = unlinks a ++ unlinks b := by
  induction a with
  | nil => rfl
  | cons e t ih => cases e <;> simp [unlinks, ih]

theorem received_append (a b : List Effect) :
    received (a ++ b) = received a ++ received b := by
  induction a with
  | nil => rfl
  | cons e t ih => cases e <;> simp [received, ih]

theorem written_append (a b : List Effect) : written (a ++ b) = written a ++ written b := by
  induction a with
  | nil => rfl
  | cons e t ih => cases e <;> simp [written, ih]

theorem opened_append (a b : List Effect) : opened (a ++ b) = opened a ++ opened b := by
  induction a with
  | nil => rfl
  | cons e t ih => cases e <;> simp [opened, ih]

theorem give_ups_append (a b : List Effect) :
    give_ups (a ++ b) = give_ups a ++ give_ups b := by
  induction a with
  | nil => rfl
  | cons e t ih => cases e <;> simp [give_ups, ih]

/-! ## The three loops of `send_file` -/

theorem write_all_quiet (fd : Int) (ws : List (Option Nat)) :
    ∀ (dest : List Nat) (dataleft : Int),
      unlinks (write_all fd dest dataleft ws).2.1 = [] ∧
      received (write_all fd dest dataleft ws).2.1 = [] ∧
      give_ups (write_all fd dest dataleft ws).2.1 = [] := by
  induction ws with
  | nil => intro dest dataleft; simp [write_all, unlinks, received, give_ups]
  | cons w rest ih =>
    intro dest dataleft
    unfold write_all
    split
    · simp [unlinks, received, give_ups]
    · cases w with
      | none => simp [unlinks, received, give_ups]
      | some k => simpa [unlinks, received, give_ups] using ih _ _

theorem send_content_quiet (fd : Int) (length : Nat) (fr : List (List Nat)) :
    ∀ (totalread : Nat) (ws : List (Option Nat)),
      unlinks (send_content fd length fr totalread ws).2 = [] ∧
      received (send_content fd length fr totalread ws).2 = [] ∧
      give_ups (send_content fd length fr totalread ws).2 = [] := by
  induction fr with
  | nil => intro totalread ws; unfold send_content; split <;> simp [unlinks, received, give_ups]
  | cons chunk more ih =>
    intro totalread ws
    unfold send_content
    split
    · simp [unlinks, received, give_ups]
    · simp only []
      split
      · simp [unlinks, received, give_ups]
      · have h1 := write_all_quiet fd ws (List.take CHUNK_SIZE chunk)
          ((List.take CHUNK_SIZE chunk).length : Int)
        split
        · have h2 := ih ((totalread + (List.take CHUNK_SIZE chunk).length) % 4294967296)
            (write_all fd (List.take CHUNK_SIZE chunk)
              ((List.take CHUNK_SIZE chunk).length : Int) ws).2.2
          refine ⟨?_, ?_, ?_⟩
          · rw [unlinks_append, h1.1, h2.1]; rfl
          · rw [received_append, h1.2.1, h2.2.1]; rfl
          · rw [give_ups_append, h1.2.2, h2.2.2]; rfl
        · exact h1

theorem send_content_ret (fd : Int) (length : Nat) (fr : List (List Nat)) :
    ∀ (totalread : Nat) (ws : List (Option Nat)) (v : Int),
      (send_content fd length fr totalread ws).1 = some v → v = 1 ∨ v = -1 := by
  induction fr with
  | nil =>
    intro totalread ws v
    unfold send_content
    split <;> simp
    intro h; exact Or.inl h.symm
  | cons chunk more ih =>
    intro totalread ws v
    unfold send_content
    split
    · simp
    · simp only []
      split
      · simp; intro h; exact Or.inl h.symm
      · split
        · exact ih _ _ v
        · simp; intro h; exact Or.inr h.symm

theorem read_confirmation_spec (fd : Int) (rs : List (Option (List Nat))) :
    ∀ (stored : List Nat),
      unlinks (read_confirmation fd stored rs).2 = [] ∧
      give_ups (read_confirmation fd stored rs).2 = [] ∧
      (∀ st, (read_confirmation fd stored rs).1 = some st →
        st = stored ++ received (read_confirmation fd stored rs).2 ∧ 4 ≤ st.length) ∧
      ((read_confirmation fd stored rs).1 = none →
        (stored ++ received (read_confirmation fd stored rs).2).length < 4) := by
  induction rs with
  | nil =>
    intro stored
    unfold read_confirmation
    split <;> simp [unlinks, received, give_ups] <;> omega
  | cons r rest ih =>
    intro stored
    unfold read_confirmation
    split
    · simp [unlinks, received, give_ups]; omega
    · cases r with
      | none => simp [unlinks, received, give_ups]; omega
      | some bs =>
        simp only []
        split
        · simp [unlinks, received, give_ups]; omega
        · obtain ⟨h1, h2, h3, h4⟩ := ih (stored ++ List.take 4 bs)
          refine ⟨by simpa [unlinks] using h1, by simpa [give_ups] using h2, ?_, ?_⟩
          · intro st hst
            have := h3 st hst
            simpa [received, List.append_assoc] using this
          · intro hn
            have := h4 hn
            simpa [received, List.append_assoc] using this

/-! ## `send_file`: the suffix test -/

theorem strcmp_self (a : List Nat) : strcmp a a = 0 := by
  induction a with
  | nil => rfl
  | cons x t ih => simp [strcmp, ih]

theorem strcmp_eq_zero : ∀ (a b : List Nat), strcmp a b = 0 → a = b := by
  intro a
  induction a with
  | nil => intro b h; cases b with
    | nil => rfl
    | cons y u => simp [strcmp] at h
  | cons x t ih =>
    intro b h
    cases b with
    | nil => simp [strcmp] at h
    | cons y u =>
      unfold strcmp at h
      split at h
      · rename_i hxy; rw [hxy, ih u h]
      · split at h <;> simp at h

theorem substr_dat (before : Nat → Nat) (stem : List Nat) :
    substr before (stem ++ dotDat) = dotDat := by
  have hl : (stem ++ dotDat).length = stem.length + 4 := by simp [dotDat]
  unfold substr
  rw [if_pos (by omega), hl]
  simp

theorem substr_long (before : Nat → Nat) (filepath : List Nat) (h : 4 ≤ filepath.length) :
    filepath = filepath.take (filepath.length - 4) ++ substr before filepath := by
  unfold substr
  rw [if_pos h, List.take_append_drop]

/-! ## `send_file`: deletion and the message id -/

theorem send_file_cases (host : Endian) (serialNum : List Nat) (sendid : Nat) (fd : Int)
    (before : Nat → Nat) (filepath : List Nat) (env : SendEnv) :
    (∃ st, 4 ≤ st.length ∧
        received (send_file host serialNum sendid fd before filepath env).trace = st ∧
        (send_file host serialNum sendid fd before filepath env).ret = some 0 ∧
        (send_file host serialNum sendid fd before filepath env).sendid = next_sendid sendid ∧
        unlinks (send_file host serialNum sendid fd before filepath env).trace =
          (if dec32 host (st.take 4) = sendid
            then [unlink_path host sendid (env.ftell % 4294967296).toNat filepath serialNum env]
            else []))
    ∨ ((received (send_file host serialNum sendid fd before filepath env).trace).length < 4 ∧
        (send_file host serialNum sendid fd before filepath env).sendid = sendid ∧
        unlinks (send_file host serialNum sendid fd before filepath env).trace = [] ∧
        ((send_file host serialNum sendid fd before filepath env).ret = some 0 →
          (send_file host serialNum sendid fd before filepath env).trace = [])) := by
  have hw := write_all_quiet fd env.writes
    (header_data host sendid (env.ftell % 4294967296).toNat filepath serialNum)
    (toInt32 (header_size filepath serialNum))
  have hc := send_content_quiet fd (env.ftell % 4294967296).toNat env.freads 0
    (write_all fd (header_data host sendid (env.ftell % 4294967296).toNat filepath serialNum)
      (toInt32 (header_size filepath serialNum)) env.writes).2.2
  have hcr := send_content_ret fd (env.ftell % 4294967296).toNat env.freads 0
    (write_all fd (header_data host sendid (env.ftell % 4294967296).toNat filepath serialNum)
      (toInt32 (header_size filepath serialNum)) env.writes).2.2
  have hx := read_confirmation_spec fd env.reads []
  unfold send_file
  split
  · right; simp [received, unlinks]
  · split
    · right; simp [received, unlinks]
    · simp only []
      split
      · right
        simp [received, unlinks, hw.1, hw.2.1]
      · split
        · right
          simp [received, unlinks, unlinks_append, received_append, hw.1, hw.2.1]
        · split
          · rename_i v hv
            right
            have hv1 := hcr v hv
            refine ⟨?_, rfl, ?_, ?_⟩
            · simp [received, received_append, hw.2.1, hc.2.1]
            · simp [unlinks, unlinks_append, hw.1, hc.1]
            · intro h0
              simp at h0
              rcases hv1 with h | h <;> omega
          · split
            · rename_i hn
              right
              have h4 := hx.2.2.2 hn
              refine ⟨?_, rfl, ?_, ?_⟩
              · simpa [received, received_append, hw.2.1, hc.2.1] using h4
              · simp [unlinks, unlinks_append, hw.1, hc.1, hx.1]
              · intro h0; simp at h0
            · rename_i stored hst
              left
              obtain ⟨he, hl⟩ := hx.2.2.1 stored hst
              simp only [List.nil_append] at he
              refine ⟨stored, hl, ?_, rfl, rfl, ?_⟩
              · rw [he]
                by_cases hm : dec32 host
                    (List.take 4 (received (read_confirmation fd [] env.reads).2)) = sendid
                · simp [received, received_append, hw.2.1, hc.2.1, hm]
                · simp [received, received_append, hw.2.1, hc.2.1, hm]
              · by_cases hm : dec32 host (List.take 4 stored) = sendid
                · simp [unlinks, unlinks_append, hw.1, hc.1, hx.1, hm]
                · simp [unlinks, unlinks_append, hw.1, hc.1, hx.1, hm]

theorem unlink_path_in_bounds (host : Endian) (sendid length : Nat)
    (filepath serialNum : List Nat) (env : SendEnv)
    (hin : header_overflow host sendid length filepath serialNum = false) :
    unlink_path host sendid length filepath serialNum env = filepath := by
  unfold unlink_path
  rw [hin]
  rfl

/-- When every store of the header build stays inside `data`: for every run of
`send_file` on a path ending in `.dat`, `unlink` is called (once, on that path)
exactly when a full 4-byte confirmation was read from the socket and its value
equals the message id `sendid` put into the frame header; in every run that does
not return 0, and in every run with a missing or different confirmation, no
`unlink` is attempted. -/
theorem send_file_unlink_iff_confirmed (host : Endian) (serialNum : List Nat)
    (sendid : Nat) (fd : Int) (before : Nat → Nat) (stem : List Nat) (env : SendEnv)
    (hin : header_overflow host sendid (env.ftell % 4294967296).toNat
      (stem ++ dotDat) serialNum = false) :
    unlinks (send_file host serialNum sendid fd before (stem ++ dotDat) env).trace =
        (if 4 ≤ (received (send_file host serialNum sendid fd before
                (stem ++ dotDat) env).trace).length ∧
            dec32 host ((received (send_file host serialNum sendid fd before
                (stem ++ dotDat) env).trace).take 4) = sendid
          then [stem ++ dotDat] else []) ∧
      ((send_file host serialNum sendid fd before (stem ++ dotDat) env).ret ≠ some 0 →
        unlinks (send_file host serialNum sendid fd before (stem ++ dotDat) env).trace = []) := by
  rcases send_file_cases host serialNum sendid fd before (stem ++ dotDat) env with
    ⟨st, hl, hr, h0, _, hu⟩ | ⟨hl, _, hu, _⟩
  · refine ⟨?_, fun h => absurd h0 h⟩
    rw [hu, hr, unlink_path_in_bounds _ _ _ _ _ _ hin]
    by_cases hm : dec32 host (List.take 4 st) = sendid
    · rw [if_pos hm, if_pos ⟨hl, hm⟩]
    · rw [if_neg hm, if_neg (fun h => hm h.2)]
  · refine ⟨?_, fun _ => hu⟩
    rw [hu, if_neg (fun h => by omega)]

/-- C3, counterexample: with `sendid = 2` and the confirmation 999 the ids differ,
the file is kept, and yet `sendid` is 3 after the call. -/
theorem sendid_advances_on_mismatch :
    dec32 Endian.little (received (send_file Endian.little (cstr "P3001") 2 5 (fun _ => 0)
        (cstr "/r/c.dat") mismatch_env).trace) = 999 ∧
      unlinks (send_file Endian.little (cstr "P3001") 2 5 (fun _ => 0)
        (cstr "/r/c.dat") mismatch_env).trace = [] ∧
      (send_file Endian.little (cstr "P3001") 2 5 (fun _ => 0)
        (cstr "/r/c.dat") mismatch_env).sendid = 3 := by
  decide

/-- C3, amended: `sendid` advances exactly when a full 4-byte confirmation has
been read, whether or not its value equals the id sent; in every other run of
`send_file` it keeps its value. The advance is `sendid + 1` modulo `2^32`, replaced
by 1 when that is `0xFFFFFFFF`. -/
theorem sendid_advances_iff_confirmation_read (host : Endian) (serialNum : List Nat)
    (sendid : Nat) (fd : Int) (before : Nat → Nat) (filepath : List Nat) (env : SendEnv) :
    (send_file host serialNum sendid fd before filepath env).sendid =
      (if 4 ≤ (received (send_file host serialNum sendid fd before filepath env).trace).length
        then next_sendid sendid else sendid) := by
  rcases send_file_cases host serialNum sendid fd before filepath env with
    ⟨st, hl, hr, _, hs, _⟩ | ⟨hl, hs, _, _⟩
  · rw [hs, hr, if_pos hl]
  · rw [hs, if_neg (by omega)]

/-! ## The message id never becomes zero -/

theorem next_sendid_range (sendid : Nat) (h : sendid < 4294967295) :
    0 < next_sendid sendid ∧ next_sendid sendid < 4294967295 := by
  unfold next_sendid
  split <;> omega

theorem send_file_sendid_range (host : Endian) (serialNum : List Nat) (sendid : Nat)
    (fd : Int) (before : Nat → Nat) (filepath : List Nat) (env : SendEnv)
    (h : 0 < sendid ∧ sendid < 4294967295) :
    0 < (send_file host serialNum sendid fd before filepath env).sendid ∧
      (send_file host serialNum sendid fd before filepath env).sendid < 4294967295 := by
  rcases send_file_cases host serialNum sendid fd before filepath env with
    ⟨_, _, _, _, hs, _⟩ | ⟨_, hs, _, _⟩
  · rw [hs]; exact next_sendid_range sendid h.2
  · rw [hs]; exact h

theorem run_calls_range (host : Endian) (serialNum : List Nat) (calls : List Call) :
    ∀ sendid, 0 < sendid ∧ sendid < 4294967295 →
      0 < run_calls host serialNum sendid calls ∧
        run_calls host serialNum sendid calls < 4294967295 := by
  induction calls with
  | nil => intro sendid h; exact h
  | cons c cs ih =>
    intro sendid h
    exact ih _ (send_file_sendid_range host serialNum sendid _ _ _ _ h)

theorem dec32_u32bytes (host : Endian) (v : Nat) :
    dec32 host (u32bytes host v) = v % 4294967296 := by
  cases host <;> simp [dec32, u32bytes] <;> omega

/-- C4: `sendid` starts at 1 and, after any finite sequence of `send_file` calls
with arbitrary arguments, outcomes and confirmation values, it is still non-zero
(indeed between 1 and `0xFFFFFFFE`), so the value found before each call, and the
message id field that encodes it in the frame header, is never zero. -/
theorem sendid_never_zero (host : Endian) (serialNum : List Nat) (calls : List Call) :
    sendid_init = 1 ∧
      run_calls host serialNum sendid_init calls ≠ 0 ∧
      run_calls host serialNum sendid_init calls < 4294967295 ∧
      dec32 host (u32bytes host (run_calls host serialNum sendid_init calls)) ≠ 0 := by
  have h := run_calls_range host serialNum calls sendid_init (by decide)
  refine ⟨rfl, by omega, h.2, ?_⟩
  rw [dec32_u32bytes]
  omega

/-! ## The skip of files that are not `.dat` -/

theorem send_file_skips_other_suffix (host : Endian) (serialNum : List Nat) (sendid : Nat)
    (fd : Int) (before : Nat → Nat) (filepath : List Nat) (env : SendEnv)
    (hlen : 4 ≤ filepath.length) (hsuf : filepath.drop (filepath.length - 4) ≠ dotDat) :
    send_file host serialNum sendid fd before filepath env = ⟨some 0, sendid, []⟩ := by
  have hs : substr before filepath = filepath.drop (filepath.length - 4) := by
    unfold substr; rw [if_pos hlen]
  unfold send_file
  rw [if_pos]
  intro h
  exact hsuf (hs ▸ strcmp_eq_zero _ _ h)

theorem send_file_dat_not_skipped (host : Endian) (serialNum : List Nat) (sendid : Nat)
    (fd : Int) (before : Nat → Nat) (stem : List Nat) (env : SendEnv) :
    (send_file host serialNum sendid fd before (stem ++ dotDat) env).trace.head? =
      some (Effect.fopen (stem ++ dotDat)) := by
  unfold send_file
  rw [if_neg (by rw [substr_dat, strcmp_self]; simp)]
  split
  · rfl
  · simp only []
    split
    · rfl
    · split
      · rfl
      · split
        · rfl
        · split <;> rfl

theorem readCStr_full (mem r : List Nat) (h : readCStr mem = r)
    (hlen : r.length = mem.length) : mem = r := by
  have hp : readCStr mem <+: mem := List.takeWhile_prefix _
  rw [h] at hp
  exact (hp.eq_of_length hlen).symm

theorem substr_short_ne_dat (before : Nat → Nat) (filepath : List Nat)
    (hlen : filepath.length < 4) (hslash : 47 ∈ filepath) :
    strcmp (substr before filepath) dotDat ≠ 0 := by
  intro h0
  have hs := strcmp_eq_zero _ _ h0
  unfold substr at hs
  rw [if_neg (by omega)] at hs
  have hfull := readCStr_full _ _ hs (by simp [dotDat]; omega)
  have : (47 : Nat) ∈ dotDat := by
    rw [← hfull]
    exact List.mem_append_right _ hslash
  exact absurd this (by decide)

/-- C6: `send_file` is called with a directory path ending in `/` followed by a
name, so a path shorter than four characters contains a `/`. For every such
path whose last four characters are not `.dat`, shorter paths included and
whatever bytes lie in front of the string, `send_file` returns 0 with no action
at all (no `fopen`, no byte written, no `unlink`) and `sendid` unchanged; and for
every path that ends in `.dat` the skip is not taken: the file is opened. -/
theorem send_file_skips_unless_dat (host : Endian) (serialNum : List Nat) (sendid : Nat)
    (fd : Int) (before : Nat → Nat) (filepath : List Nat) (env : SendEnv)
    (hcall : filepath.length < 4 → 47 ∈ filepath)
    (hsuf : ∀ stem, filepath ≠ stem ++ dotDat) :
    send_file host serialNum sendid fd before filepath env = ⟨some 0, sendid, []⟩ ∧
      ∀ (stem : List Nat) (fd2 : Int) (before2 : Nat → Nat) (env2 : SendEnv),
        (send_file host serialNum sendid fd2 before2 (stem ++ dotDat) env2).trace.head? =
          some (Effect.fopen (stem ++ dotDat)) := by
  refine ⟨?_, fun stem fd2 before2 env2 =>
    send_file_dat_not_skipped host serialNum sendid fd2 before2 stem env2⟩
  by_cases hlen : 4 ≤ filepath.length
  · apply send_file_skips_other_suffix host serialNum sendid fd before filepath env hlen
    intro hd
    apply hsuf (filepath.take (filepath.length - 4))
    rw [← hd, List.take_append_drop]
  · have hne := substr_short_ne_dat before filepath (by omega) (hcall (by omega))
    unfold send_file
    rw [if_pos hne]

/-- C6, witness: the path `./a` (three characters) with `.` bytes in front of it,
and the path `/r/a.txt` of scenario 1, are skipped. -/
theorem send_file_skips_unless_dat_witness :
    ((cstr "./a").length < 4 ∧ 47 ∈ cstr "./a" ∧ 47 ∈ cstr "/r/a.txt") ∧
      send_file Endian.little (cstr "P3001") 1 5 (fun _ => 46) (cstr "./a") matched_env
        = ⟨some 0, 1, []⟩ ∧
      send_file Endian.little (cstr "P3001") 1 5 (fun _ => 46) (cstr "/r/a.txt") matched_env
        = ⟨some 0, 1, []⟩ :=
  ⟨⟨by decide, by decide, by decide⟩,
    (send_file_skips_unless_dat Endian.little (cstr "P3001") 1 5 (fun _ => 46) (cstr "./a")
      matched_env (fun _ => by decide)
      (fun stem h => by
        have := congrArg List.length h
        simp [cstr, dotDat] at this)).1,
    (send_file_skips_unless_dat Endian.little (cstr "P3001") 1 5 (fun _ => 46)
      (cstr "/r/a.txt") matched_env (fun _ => by decide)
      (fun stem h => by
        have h2 := congrArg (fun l => l.drop (l.length - 4)) h
        simp [cstr, dotDat] at h2)).1⟩

/-- Outside the call sites of the daemon: were `send_file` handed the string
`"dat"` stored right behind a `.` byte, a path that contains no `/`, the suffix
test would read that byte and the file would be opened, sent and unlinked. -/
theorem send_file_short_path_not_skipped :
    (send_file Endian.little (cstr "P3001") 1 5 before_dot (cstr "dat") matched_env).ret
        = some 0 ∧
      opened (send_file Endian.little (cstr "P3001") 1 5 before_dot (cstr "dat")
        matched_env).trace = [cstr "dat"] ∧
      written (send_file Endian.little (cstr "P3001") 1 5 before_dot (cstr "dat")
        matched_env).trace ≠ [] ∧
      unlinks (send_file Endian.little (cstr "P3001") 1 5 before_dot (cstr "dat")
        matched_env).trace = [cstr "dat"] ∧
      (send_file Endian.little (cstr "P3001") 1 5 before_dot (cstr "dat")
        matched_env).sendid = 2 := by
  decide

/-! ## The frame header -/

theorem land_mask (y : Nat) (h : y < 4294967296) : y &&& 0xFFFFFFFC = y / 4 * 4 := by
  have e : y / 4 * 4 = (y >>> 2) <<< 2 := by
    rw [Nat.shiftLeft_eq, Nat.shiftRight_eq_div_pow]
  rw [e]
  apply Nat.eq_of_testBit_eq
  intro i
  rw [Nat.testBit_land, Nat.testBit_shiftLeft, Nat.testBit_shiftRight]
  by_cases hi : i < 32
  · have : Nat.testBit 0xFFFFFFFC i = decide (2 ≤ i) := by
      interval_cases i <;> decide
    rw [this]
    by_cases h2 : 2 ≤ i
    · simp [h2, Nat.add_sub_cancel' h2]
    · simp [h2]
  · have hy : Nat.testBit y i = false := by
      apply Nat.testBit_lt_two_pow
      calc y < 2 ^ 32 := h
        _ ≤ 2 ^ i := Nat.pow_le_pow_right (by decide) (by omega)
    have h2 : 2 ≤ i := by omega
    simp [hy, h2, Nat.add_sub_cancel' h2]

theorem blit_zeros (pre bs : List Nat) (k off : Nat) (hoff : off = pre.length)
    (h : bs.length ≤ k) :
    blit (pre ++ List.replicate k 0) (off, bs) = pre ++ bs ++ List.replicate (k - bs.length) 0 := by
  subst hoff
  unfold blit
  simp only [List.length_append, List.length_replicate]
  rw [List.take_left, Nat.add_sub_cancel_left, List.take_of_length_le h, List.drop_append,
    List.drop_replicate]

theorem blit_cstr_zeros (pre bs : List Nat) (k off : Nat) (hoff : off = pre.length)
    (h : bs.length ≤ k) :
    blit (pre ++ List.replicate k 0) (off, bs ++ [0]) =
      pre ++ bs ++ List.replicate (k - bs.length) 0 := by
  subst hoff
  unfold blit
  simp only [List.length_append, List.length_replicate, List.length_singleton]
  rw [List.take_left, Nat.add_sub_cancel_left, List.drop_append, List.drop_replicate]
  rcases Nat.eq_or_lt_of_le h with he | hl
  · rw [List.take_append_of_le_length (by omega), List.take_of_length_le (by omega)]
    simp [he]
  · rw [List.take_of_length_le (by simp; omega)]
    have : k - bs.length = (k - (bs.length + 1)) + 1 := by omega
    rw [this, List.replicate_succ]
    simp

theorem roundUp4_eq (x : Nat) (h : x + 3 < 4294967296) : roundUp4 x = (x + 3) / 4 * 4 := by
  unfold roundUp4
  rw [Nat.mod_eq_of_lt h, land_mask _ h]

theorem u32bytes_length (host : Endian) (v : Nat) : (u32bytes host v).length = 4 := by
  cases host <;> rfl

theorem u32bytes_mod (host : Endian) (v : Nat) :
    u32bytes host (v % 4294967296) = u32bytes host v := by
  cases host <;> simp [u32bytes] <;> omega

theorem header_data_eq (host : Endian) (sendid length : Nat) (filepath serialNum : List Nat)
    (hn : filepath.length < 1073741824) (hs : serialNum.length < 1073741824) :
    header_data host sendid length filepath serialNum =
      u32bytes host sendid ++ u32bytes host filepath.length ++
        u32bytes host serialNum.length ++ u32bytes host length ++
        filepath ++ List.replicate (roundUp4 filepath.length - filepath.length) 0 ++
        serialNum ++ List.replicate (roundUp4 serialNum.length - serialNum.length) 0 := by
  have en := roundUp4_eq filepath.length (by omega)
  have es := roundUp4_eq serialNum.length (by omega)
  have hrn : filepath.length ≤ roundUp4 filepath.length := by omega
  have hrs : serialNum.length ≤ roundUp4 serialNum.length := by omega
  have hrn2 : roundUp4 filepath.length < 1073741828 := by omega
  have hrs2 : roundUp4 serialNum.length < 1073741828 := by omega
  unfold header_data header_size header_stores
  rw [Nat.mod_eq_of_lt (show filepath.length < 4294967296 by omega),
    Nat.mod_eq_of_lt (show serialNum.length < 4294967296 by omega),
    Nat.mod_eq_of_lt (show 16 + roundUp4 filepath.length + roundUp4 serialNum.length
      < 4294967296 by omega)]
  generalize roundUp4 filepath.length = rn at *
  generalize roundUp4 serialNum.length = rs at *
  have l1 := u32bytes_length host sendid
  have l2 := u32bytes_length host filepath.length
  have l3 := u32bytes_length host serialNum.length
  have l4 := u32bytes_length host length
  generalize u32bytes host sendid = A at *
  generalize u32bytes host filepath.length = B at *
  generalize u32bytes host serialNum.length = C at *
  generalize u32bytes host length = D at *
  simp only [List.foldl]
  have e1 := blit_zeros [] A (16 + rn + rs) 0 rfl (by omega)
  rw [List.nil_append] at e1
  rw [e1]
  have e2 := blit_zeros ([] ++ A) B (16 + rn + rs - A.length) 4 (by simp [l1]) (by omega)
  rw [e2]
  have e3 := blit_zeros ([] ++ A ++ B) C (16 + rn + rs - A.length - B.length) 8
    (by simp [l1, l2]) (by omega)
  rw [e3]
  have e4 := blit_zeros ([] ++ A ++ B ++ C) D
    (16 + rn + rs - A.length - B.length - C.length) 12 (by simp [l1, l2, l3]) (by omega)
  rw [e4]
  have e5 := blit_cstr_zeros ([] ++ A ++ B ++ C ++ D) filepath
    (16 + rn + rs - A.length - B.length - C.length - D.length) 16
    (by simp [l1, l2, l3, l4]) (by omega)
  rw [e5]
  have hk : 16 + rn + rs - A.length - B.length - C.length - D.length - filepath.length
      = (rn - filepath.length) + rs := by omega
  rw [hk, List.replicate_add, ← List.append_assoc]
  have e6 := blit_cstr_zeros
    ([] ++ A ++ B ++ C ++ D ++ filepath ++ List.replicate (rn - filepath.length) 0)
    serialNum rs (16 + rn) (by simp [l1, l2, l3, l4]; omega) hrs
  rw [e6]
  simp

theorem write_all_written (fd : Int) (ws : List (Option Nat)) :
    ∀ (dest : List Nat) (dataleft : Int), dataleft = (dest.length : Int) →
      written (write_all fd dest dataleft ws).2.1 <+: dest ∧
      ((write_all fd dest dataleft ws).1 = true →
        written (write_all fd dest dataleft ws).2.1 = dest) := by
  induction ws with
  | nil =>
    intro dest dataleft h
    simp only [write_all, written]
    refine ⟨List.nil_prefix, ?_⟩
    intro hd
    have : dest.length = 0 := by
      have := of_decide_eq_true hd
      omega
    exact (List.length_eq_zero.mp this).symm
  | cons w rest ih =>
    intro dest dataleft h
    unfold write_all
    split
    · rename_i hle
      have : dest.length = 0 := by omega
      have hd : dest = [] := List.length_eq_zero.mp this
      simp [written, hd]
    · cases w with
      | none => simp [written]
      | some k =>
        simp only [written]
        have hlen : dataleft - ((min k dataleft.toNat : Nat) : Int) =
            ((dest.drop (min k dataleft.toNat)).length : Int) := by
          rw [List.length_drop]
          omega
        obtain ⟨h1, h2⟩ := ih (dest.drop (min k dataleft.toNat)) _ hlen
        constructor
        · obtain ⟨t, ht⟩ := h1
          refine ⟨t, ?_⟩
          rw [List.append_assoc, ht, List.take_append_drop]
        · intro hok
          rw [h2 hok, List.take_append_drop]
theorem roundUp4_least (x : Nat) (h : x + 3 < 4294967296) :
    roundUp4 x % 4 = 0 ∧ x ≤ roundUp4 x ∧ roundUp4 x < x + 4 := by
  rw [roundUp4_eq x h]
  omega

theorem header_data_length (host : Endian) (sendid length : Nat)
    (filepath serialNum : List Nat)
    (hn : filepath.length < 1073741824) (hs : serialNum.length < 1073741824) :
    (header_data host sendid length filepath serialNum).length =
      16 + roundUp4 filepath.length + roundUp4 serialNum.length := by
  have rn := roundUp4_least filepath.length (by omega)
  have rs := roundUp4_least serialNum.length (by omega)
  rw [header_data_eq host sendid length filepath serialNum hn hs]
  simp only [List.length_append, List.length_replicate, u32bytes_length]
  omega

/-- C5: for a path of length `n` ending in `.dat`, a serial number of length `s`
and a file of size `L` (lengths below `2^29`, `L` a 32-bit value), the header
buffer of `send_file` is the four fields `sendid`, `n`, `s`, `L`, the path, zero
bytes up to `roundUp4 n`, the serial number and zero bytes up to `roundUp4 s`;
it is `16 + roundUp4 n + roundUp4 s` bytes long, `roundUp4 x` being the least
multiple of 4 that is at least `x`; and what `send_file` writes to the socket
begins with this header (all of it whenever the call returns 0, an initial part
of it when a header write fails). -/
theorem frame_header_layout (host : Endian) (sendid L : Nat) (fd : Int)
    (before : Nat → Nat) (stem serialNum : List Nat) (env : SendEnv)
    (hn : (stem ++ dotDat).length < 536870912) (hs : serialNum.length < 536870912)
    (hL : env.ftell = (L : Int)) (hL32 : L < 4294967296) :
    (roundUp4 (stem ++ dotDat).length % 4 = 0 ∧
        (stem ++ dotDat).length ≤ roundUp4 (stem ++ dotDat).length ∧
        roundUp4 (stem ++ dotDat).length < (stem ++ dotDat).length + 4) ∧
      (roundUp4 serialNum.length % 4 = 0 ∧
        serialNum.length ≤ roundUp4 serialNum.length ∧
        roundUp4 serialNum.length < serialNum.length + 4) ∧
      header_data host sendid L (stem ++ dotDat) serialNum =
        frame_header host sendid L (stem ++ dotDat) serialNum
          (roundUp4 (stem ++ dotDat).length - (stem ++ dotDat).length)
          (roundUp4 serialNum.length - serialNum.length) ∧
      (header_data host sendid L (stem ++ dotDat) serialNum).length =
        16 + roundUp4 (stem ++ dotDat).length + roundUp4 serialNum.length ∧
      (written (send_file host serialNum sendid fd before (stem ++ dotDat) env).trace <+:
          header_data host sendid L (stem ++ dotDat) serialNum ∨
        header_data host sendid L (stem ++ dotDat) serialNum <+:
          written (send_file host serialNum sendid fd before (stem ++ dotDat) env).trace) ∧
      ((send_file host serialNum sendid fd before (stem ++ dotDat) env).ret = some 0 →
        header_data host sendid L (stem ++ dotDat) serialNum <+:
          written (send_file host serialNum sendid fd before (stem ++ dotDat) env).trace) := by
  have rn := roundUp4_least (stem ++ dotDat).length (by omega)
  have rs := roundUp4_least serialNum.length (by omega)
  have heq := header_data_eq host sendid L (stem ++ dotDat) serialNum (by omega) (by omega)
  have hlen := header_data_length host sendid L (stem ++ dotDat) serialNum
    (by omega) (by omega)
  have hsize : header_size (stem ++ dotDat) serialNum =
      16 + roundUp4 (stem ++ dotDat).length + roundUp4 serialNum.length := by
    unfold header_size
    rw [Nat.mod_eq_of_lt (show (stem ++ dotDat).length < 4294967296 by omega),
      Nat.mod_eq_of_lt (show serialNum.length < 4294967296 by omega),
      Nat.mod_eq_of_lt (by omega)]
  have hleft : toInt32 (header_size (stem ++ dotDat) serialNum) =
      ((header_data host sendid L (stem ++ dotDat) serialNum).length : Int) := by
    rw [hlen, hsize]
    unfold toInt32
    rw [Nat.mod_eq_of_lt (by omega), if_pos (by omega)]
  have hLn : (env.ftell % 4294967296).toNat = L := by
    rw [hL]; omega
  have hw := write_all_written fd env.writes
    (header_data host sendid L (stem ++ dotDat) serialNum) _ hleft
  have key : (written (send_file host serialNum sendid fd before (stem ++ dotDat) env).trace <+:
          header_data host sendid L (stem ++ dotDat) serialNum ∧
        (send_file host serialNum sendid fd before (stem ++ dotDat) env).ret ≠ some 0) ∨
      header_data host sendid L (stem ++ dotDat) serialNum <+:
        written (send_file host serialNum sendid fd before (stem ++ dotDat) env).trace := by
    unfold send_file
    rw [if_neg (by rw [substr_dat, strcmp_self]; simp), hLn]
    split
    · left; simp [written]
    · simp only []
      split
      · left
        refine ⟨by simpa [written] using hw.1, by simp⟩
      · rename_i hok
        have hfull := hw.2 (by simpa using hok)
        right
        split
        · simp [written, written_append, hfull]
        · split
          · simp [written, written_append, hfull, List.append_assoc]
          · split
            · simp [written, written_append, hfull, List.append_assoc]
            · simp [written, written_append, hfull, List.append_assoc]
  refine ⟨rn, rs, ?_, hlen, ?_, ?_⟩
  · rw [heq]; rfl
  · rcases key with h | h
    · exact Or.inl h.1
    · exact Or.inr h
  · intro h0
    rcases key with h | h
    · exact absurd h0 h.2
    · exact h

/-- C5, witness: the path `/r/a.dat` (8 bytes), the serial number `P3001`
(5 bytes, padded to 8) and a file of 3 bytes. -/
theorem frame_header_layout_witness :
    ((cstr "/r/a" ++ dotDat).length < 536870912 ∧ (cstr "P3001").length < 536870912 ∧
      matched_env.ftell = ((3 : Nat) : Int) ∧ 3 < 4294967296) ∧
    header_data Endian.little 1 3 (cstr "/r/a" ++ dotDat) (cstr "P3001") =
        frame_header Endian.little 1 3 (cstr "/r/a" ++ dotDat) (cstr "P3001")
          (roundUp4 (cstr "/r/a" ++ dotDat).length - (cstr "/r/a" ++ dotDat).length)
          (roundUp4 (cstr "P3001").length - (cstr "P3001").length) ∧
    ((send_file Endian.little (cstr "P3001") 1 5 (fun _ => 0) (cstr "/r/a" ++ dotDat)
        matched_env).ret = some 0 →
      header_data Endian.little 1 3 (cstr "/r/a" ++ dotDat) (cstr "P3001") <+:
        written (send_file Endian.little (cstr "P3001") 1 5 (fun _ => 0)
          (cstr "/r/a" ++ dotDat) matched_env).trace) :=
  ⟨⟨by decide, by decide, rfl, by decide⟩,
    (frame_header_layout Endian.little 1 3 5 (fun _ => 0) (cstr "/r/a") (cstr "P3001")
      matched_env (by decide) (by decide) rfl (by decide)).2.2.1,
    (frame_header_layout Endian.little 1 3 5 (fun _ => 0) (cstr "/r/a") (cstr "P3001")
      matched_env (by decide) (by decide) rfl (by decide)).2.2.2.2.2⟩
/-! ## `send_file` does not depend on the descriptor, and what a failed call leaves -/

theorem write_all_fd (fd fd2 : Int) (ws : List (Option Nat)) :
    ∀ (dest : List Nat) (dataleft : Int),
      (write_all fd dest dataleft ws).1 = (write_all fd2 dest dataleft ws).1 ∧
      (write_all fd dest dataleft ws).2.2 = (write_all fd2 dest dataleft ws).2.2 ∧
      opened (write_all fd dest dataleft ws).2.1 = [] := by
  induction ws with
  | nil => intro dest dataleft; simp [write_all, opened]
  | cons w rest ih =>
    intro dest dataleft
    unfold write_all
    split
    · simp [opened]
    · cases w with
      | none => simp [opened]
      | some k => simpa [opened] using ih _ _

theorem send_content_fd (fd fd2 : Int) (length : Nat) (fr : List (List Nat)) :
    ∀ (totalread : Nat) (ws : List (Option Nat)),
      (send_content fd length fr totalread ws).1 = (send_content fd2 length fr totalread ws).1 ∧
      opened (send_content fd length fr totalread ws).2 = [] := by
  induction fr with
  | nil => intro totalread ws; unfold send_content; split <;> simp [opened]
  | cons chunk more ih =>
    intro totalread ws
    unfold send_content
    split
    · simp [opened]
    · simp only []
      split
      · simp [opened]
      · have h1 := write_all_fd fd fd2 ws (List.take CHUNK_SIZE chunk)
          ((List.take CHUNK_SIZE chunk).length : Int)
        rw [← h1.1, ← h1.2.1]
        split
        · have h2 := ih ((totalread + (List.take CHUNK_SIZE chunk).length) % 4294967296)
            (write_all fd (List.take CHUNK_SIZE chunk)
              ((List.take CHUNK_SIZE chunk).length : Int) ws).2.2
          refine ⟨h2.1, ?_⟩
          rw [opened_append, h1.2.2, h2.2]; rfl
        · exact ⟨rfl, h1.2.2⟩

theorem read_confirmation_fd (fd fd2 : Int) (rs : List (Option (List Nat))) :
    ∀ (stored : List Nat),
      (read_confirmation fd stored rs).1 = (read_confirmation fd2 stored rs).1 ∧
      opened (read_confirmation fd stored rs).2 = [] := by
  induction rs with
  | nil => intro stored; unfold read_confirmation; split <;> simp [opened]
  | cons r rest ih =>
    intro stored
    unfold read_confirmation
    split
    · simp [opened]
    · cases r with
      | none => simp [opened]
      | some bs =>
        simp only []
        split
        · simp [opened]
        · simpa [opened] using ih _

theorem send_file_ret_fd (host : Endian) (serialNum : List Nat) (sendid : Nat)
    (fd fd2 : Int) (before : Nat → Nat) (filepath : List Nat) (env : SendEnv) :
    (send_file host serialNum sendid fd before filepath env).ret =
      (send_file host serialNum sendid fd2 before filepath env).ret := by
  have hw := write_all_fd fd fd2 env.writes
    (header_data host sendid (env.ftell % 4294967296).toNat filepath serialNum)
    (toInt32 (header_size filepath serialNum))
  have hc := send_content_fd fd fd2 (env.ftell % 4294967296).toNat env.freads 0
    (write_all fd (header_data host sendid (env.ftell % 4294967296).toNat filepath serialNum)
      (toInt32 (header_size filepath serialNum)) env.writes).2.2
  have hx := read_confirmation_fd fd fd2 env.reads []
  unfold send_file
  simp only []
  rw [← hw.1, ← hw.2.1, ← hc.1, ← hx.1]
  split
  · rfl
  · split
    · rfl
    · split
      · rfl
      · split
        · rfl
        · split
          · rfl
          · split <;> rfl

theorem send_file_failed (host : Endian) (serialNum : List Nat) (sendid : Nat)
    (fd : Int) (before : Nat → Nat) (filepath : List Nat) (env : SendEnv)
    (h : (send_file host serialNum sendid fd before filepath env).ret ≠ some 0) :
    (send_file host serialNum sendid fd before filepath env).sendid = sendid ∧
      unlinks (send_file host serialNum sendid fd before filepath env).trace = [] ∧
      opened (send_file host serialNum sendid fd before filepath env).trace = [filepath] := by
  rcases send_file_cases host serialNum sendid fd before filepath env with
    ⟨_, _, _, h0, _, _⟩ | ⟨_, hs, hu, _⟩
  · exact absurd h0 h
  · refine ⟨hs, hu, ?_⟩
    have hw := write_all_fd fd fd env.writes
      (header_data host sendid (env.ftell % 4294967296).toNat filepath serialNum)
      (toInt32 (header_size filepath serialNum))
    have hc := send_content_fd fd fd (env.ftell % 4294967296).toNat env.freads 0
      (write_all fd (header_data host sendid (env.ftell % 4294967296).toNat filepath serialNum)
        (toInt32 (header_size filepath serialNum)) env.writes).2.2
    have hx := read_confirmation_fd fd fd env.reads []
    revert h
    unfold send_file
    split
    · simp
    · split
      · simp [opened]
      · simp only []
        split
        · simp [opened, hw.2.2]
        · split
          · simp [opened, opened_append, hw.2.2]
          · split
            · simp [opened, opened_append, hw.2.2, hc.2]
            · split
              · simp [opened, opened_append, hw.2.2, hc.2, hx.2]
              · simp

theorem send_file_give_ups (host : Endian) (serialNum : List Nat) (sendid : Nat)
    (fd : Int) (before : Nat → Nat) (filepath : List Nat) (env : SendEnv) :
    give_ups (send_file host serialNum sendid fd before filepath env).trace = [] := by
  have hw := write_all_quiet fd env.writes
    (header_data host sendid (env.ftell % 4294967296).toNat filepath serialNum)
    (toInt32 (header_size filepath serialNum))
  have hc := send_content_quiet fd (env.ftell % 4294967296).toNat env.freads 0
    (write_all fd (header_data host sendid (env.ftell % 4294967296).toNat filepath serialNum)
      (toInt32 (header_size filepath serialNum)) env.writes).2.2
  have hx := read_confirmation_spec fd env.reads []
  unfold send_file
  split
  · rfl
  · split
    · rfl
    · simp only []
      split
      · simp [give_ups, hw.2.2]
      · split
        · simp [give_ups, give_ups_append, hw.2.2]
        · split
          · simp [give_ups, give_ups_append, hw.2.2, hc.2.2]
          · split
            · simp [give_ups, give_ups_append, hw.2.2, hc.2.2, hx.2.1]
            · split <;> simp [give_ups, give_ups_append, hw.2.2, hc.2.2, hx.2.1]
/-! ## The retry loop -/

theorem send_loop_failures (host : Endian) (serialNum : List Nat) (before : Nat → Nat)
    (filepath : List Nat) (attempts : Nat → Attempt) (fuel : Nat) :
    ∀ (k i : Nat) (n : Int) (s : Session),
      (∀ j, j < k → ∀ fd, (send_file host serialNum s.sendid fd before filepath
          (attempts (i + j)).env).ret = some (-1)) →
      (∀ j, j < k → (attempts (i + j)).socket ≠ none) →
      n + (k : Int) < (NUMFAILURES : Int) →
      ∃ (s2 : Session) (tr : List Effect),
        s2.sendid = s.sendid ∧ unlinks tr = [] ∧ give_ups tr = [] ∧
        opened tr = List.replicate k filepath ∧
        send_loop host serialNum before filepath attempts (fuel + k) i n s =
          ⟨(send_loop host serialNum before filepath attempts fuel (i + k) (n + k) s2).outcome,
            (send_loop host serialNum before filepath attempts fuel (i + k) (n + k) s2).session,
            tr ++ (send_loop host serialNum before filepath attempts fuel (i + k)
              (n + k) s2).trace⟩ := by
  intro k
  induction k with
  | zero =>
    intro i n s _ _ _
    exact ⟨s, [], rfl, rfl, rfl, rfl, by simp⟩
  | succ k ih =>
    intro i n s hfail hsock hn
    have h0 := hfail 0 (by omega) s.socket_des
    rw [Nat.add_zero] at h0
    have hf := send_file_failed host serialNum s.sendid s.socket_des before filepath
      (attempts i).env (by rw [h0]; decide)
    have hg := send_file_give_ups host serialNum s.sendid s.socket_des before filepath
      (attempts i).env
    have hs0 := hsock 0 (by omega)
    rw [Nat.add_zero] at hs0
    obtain ⟨fd, hfd⟩ := Option.ne_none_iff_exists'.mp hs0
    obtain ⟨s2, tr, e1, e2, e3, e4, e5⟩ := ih (i + 1) (n + 1)
      ⟨(send_file host serialNum s.sendid s.socket_des before filepath (attempts i).env).sendid,
        fd, false⟩
      (by
        intro j hj fd2
        have := hfail (j + 1) (by omega) fd2
        rw [show i + (j + 1) = i + 1 + j by omega] at this
        simpa [hf.1] using this)
      (by
        intro j hj
        have := hsock (j + 1) (by omega)
        rwa [show i + (j + 1) = i + 1 + j by omega] at this)
      (by push_cast at hn ⊢; omega)
    refine ⟨s2, (send_file host serialNum s.sendid s.socket_des before filepath
        (attempts i).env).trace ++
        (if s.connected then [Effect.close_connection s.socket_des] else []) ++
        [Effect.sleep TIMEDELAY, Effect.make_socket fd] ++ tr, ?_, ?_, ?_, ?_, ?_⟩
    · rw [e1]; exact hf.1
    · rw [unlinks_append, unlinks_append, unlinks_append, hf.2.1, e2]
      cases s.connected <;> rfl
    · rw [give_ups_append, give_ups_append, give_ups_append, hg, e3]
      cases s.connected <;> rfl
    · rw [opened_append, opened_append, opened_append, hf.2.2, e4, List.replicate_succ]
      cases s.connected <;> rfl
    · have hfuel : fuel + (k + 1) = (fuel + k) + 1 := by omega
      have hi : i + (k + 1) = i + 1 + k := by omega
      have hnn : n + ((k + 1 : Nat) : Int) = n + 1 + (k : Int) := by push_cast; omega
      rw [hfuel, hi, hnn]
      conv => lhs; unfold send_loop
      simp only [h0, hfd]
      clear ih hfail hsock hf hg e1 e2 e3 e4
      have hlt : ¬ (n + 1 ≥ (NUMFAILURES : Int)) := by push_cast at hn ⊢; omega
      simp only [if_true, hlt, if_false, e5]
      simp [List.append_assoc]
theorem send_loop_total (host : Endian) (serialNum : List Nat) (before : Nat → Nat)
    (filepath : List Nat) (attempts : Nat → Attempt) :
    ∀ (fuel i : Nat) (n : Int) (s : Session),
      n < (NUMFAILURES : Int) → (NUMFAILURES : Int) ≤ n + fuel →
      (send_loop host serialNum before filepath attempts fuel i n s).outcome
        ≠ Outcome.out_of_fuel := by
  intro fuel
  induction fuel with
  | zero => intro i n s h1 h2; simp at h2; omega
  | succ fuel ih =>
    intro i n s h1 h2
    unfold send_loop
    simp only []
    split
    · simp
    · split
      · split
        · simp
        · rename_i hlt
          split
          · simp
          · exact ih _ _ _ (by omega) (by push_cast at h2 ⊢; omega)
      · simp

/-- The function `send_until_success` always ends: it returns or the process exits. -/
theorem send_until_success_total (host : Endian) (serialNum : List Nat)
    (before : Nat → Nat) (filepath : List Nat) (attempts : Nat → Attempt) (s : Session) :
    (send_until_success host serialNum before filepath attempts s).outcome
      ≠ Outcome.out_of_fuel :=
  send_loop_total host serialNum before filepath attempts _ _ _ _ (by decide) (by decide)

theorem send_file_opened (host : Endian) (serialNum : List Nat) (sendid : Nat)
    (fd : Int) (before : Nat → Nat) (filepath : List Nat) (env : SendEnv) :
    (send_file host serialNum sendid fd before filepath env).trace = [] ∨
      opened (send_file host serialNum sendid fd before filepath env).trace = [filepath] := by
  have hw := write_all_fd fd fd env.writes
    (header_data host sendid (env.ftell % 4294967296).toNat filepath serialNum)
    (toInt32 (header_size filepath serialNum))
  have hc := send_content_fd fd fd (env.ftell % 4294967296).toNat env.freads 0
    (write_all fd (header_data host sendid (env.ftell % 4294967296).toNat filepath serialNum)
      (toInt32 (header_size filepath serialNum)) env.writes).2.2
  have hx := read_confirmation_fd fd fd env.reads []
  unfold send_file
  split
  · left; rfl
  · right
    split
    · simp [opened]
    · simp only []
      split
      · simp [opened, hw.2.2]
      · split
        · simp [opened, opened_append, hw.2.2]
        · split
          · simp [opened, opened_append, hw.2.2, hc.2]
          · split
            · simp [opened, opened_append, hw.2.2, hc.2, hx.2]
            · split <;> simp [opened, opened_append, hw.2.2, hc.2, hx.2]

theorem send_loop_done (host : Endian) (serialNum : List Nat) (before : Nat → Nat)
    (filepath : List Nat) (attempts : Nat → Attempt) (fuel i : Nat) (n : Int) (s : Session)
    (v : Int) (hv : v ≠ -1)
    (h : (send_file host serialNum s.sendid s.socket_des before filepath
      (attempts i).env).ret = some v) :
    send_loop host serialNum before filepath attempts (fuel + 1) i n s =
      ⟨Outcome.returned v,
        ⟨(send_file host serialNum s.sendid s.socket_des before filepath
          (attempts i).env).sendid, s.socket_des, true⟩,
        (send_file host serialNum s.sendid s.socket_des before filepath
          (attempts i).env).trace⟩ := by
  conv => lhs; unfold send_loop
  simp only [h]
  rw [if_neg hv]

/-- When every store of the header build stays inside `data`: a run of `send_file`
that returns -1 (transport failure) or 1 (local read error) leaves `sendid` as it
was and calls no `unlink`; hence, when the first `k` attempts of
`send_until_success` on a file fail in transport (`k` at most `NUMFAILURES`, each
`make_socket` returning) and attempt `k` receives the confirmation that equals
the unchanged `sendid`, the call returns 0 after opening the file `k + 1` times,
with exactly one `unlink`, of that file, and `sendid` advanced exactly once. -/
theorem retry_one_unlink_one_advance (host : Endian) (serialNum : List Nat)
    (before : Nat → Nat) (filepath : List Nat) (attempts : Nat → Attempt) (s : Session)
    (k : Nat) (hk : k ≤ NUMFAILURES)
    (hfail : ∀ j, j < k → ∀ fd, (send_file host serialNum s.sendid fd before filepath
      (attempts j).env).ret = some (-1))
    (hsock : ∀ j, j < k → (attempts j).socket ≠ none)
    (hmatch : ∀ fd,
      4 ≤ (received (send_file host serialNum s.sendid fd before filepath
        (attempts k).env).trace).length ∧
      dec32 host ((received (send_file host serialNum s.sendid fd before filepath
        (attempts k).env).trace).take 4) = s.sendid)
    (hin : header_overflow host s.sendid ((attempts k).env.ftell % 4294967296).toNat
      filepath serialNum = false) :
    (∀ (sendid : Nat) (fd : Int) (env : SendEnv),
        ((send_file host serialNum sendid fd before filepath env).ret = some (-1) ∨
          (send_file host serialNum sendid fd before filepath env).ret = some 1) →
        (send_file host serialNum sendid fd before filepath env).sendid = sendid ∧
          unlinks (send_file host serialNum sendid fd before filepath env).trace = []) ∧
      (send_until_success host serialNum before filepath attempts s).outcome
        = Outcome.returned 0 ∧
      unlinks (send_until_success host serialNum before filepath attempts s).trace
        = [filepath] ∧
      (send_until_success host serialNum before filepath attempts s).session.sendid
        = next_sendid s.sendid ∧
      opened (send_until_success host serialNum before filepath attempts s).trace
        = List.replicate (k + 1) filepath := by
  constructor
  · intro sendid fd env h
    have := send_file_failed host serialNum sendid fd before filepath env
      (by rcases h with h | h <;> rw [h] <;> decide)
    exact ⟨this.1, this.2.1⟩
  · obtain ⟨s2, tr, e1, e2, e3, e4, e5⟩ := send_loop_failures host serialNum before filepath
      attempts (NUMFAILURES + 1 - k) k 0 (-1) s
      (by intro j hj fd; simpa using hfail j hj fd)
      (by intro j hj; simpa using hsock j hj)
      (by have : (k : Int) ≤ (NUMFAILURES : Int) := by exact_mod_cast hk
          omega)
    have hfuel : NUMFAILURES + 1 - k + k = NUMFAILURES + 1 := by omega
    obtain ⟨fuel, hf⟩ : ∃ fuel, NUMFAILURES + 1 - k = fuel + 1 := ⟨NUMFAILURES - k, by omega⟩
    unfold send_until_success
    rw [← hfuel, e5, hf, Nat.zero_add]
    have hm := hmatch s2.socket_des
    rw [← e1] at hm
    rcases send_file_cases host serialNum s2.sendid s2.socket_des before filepath
        (attempts k).env with ⟨st, hl, hr, h0, hs, hu⟩ | ⟨hl, _, _, _⟩
    · have ho : opened (send_file host serialNum s2.sendid s2.socket_des before filepath
          (attempts k).env).trace = [filepath] := by
        rcases send_file_opened host serialNum s2.sendid s2.socket_des before filepath
          (attempts k).env with h | h
        · rw [h] at hr; rw [← hr] at hl; simp [received] at hl
        · exact h
      rw [send_loop_done host serialNum before filepath attempts fuel k _ s2 0 (by decide) h0]
      rw [hr] at hm
      rw [← e1] at hin
      rw [if_pos hm.2, unlink_path_in_bounds _ _ _ _ _ _ hin] at hu
      simp only []
      refine ⟨trivial, ?_, ?_, ?_⟩
      · rw [unlinks_append, e2, hu]; rfl
      · rw [hs, e1]
      · rw [opened_append, e4, ho, List.replicate_succ']
    · omega

/-- An instance of `retry_one_unlink_one_advance`: two attempts that lose the
connection at the first write, each followed by a successful reconnect, then an
attempt confirmed with id 1, with the 5-byte serial number `P3001`. -/
theorem retry_one_unlink_one_advance_witness :
    2 ≤ NUMFAILURES ∧
      (send_until_success Endian.little (cstr "P3001") (fun _ => 0) (cstr "/r/b.dat")
        two_drops_then_match ⟨1, 5, true⟩).outcome = Outcome.returned 0 ∧
      unlinks (send_until_success Endian.little (cstr "P3001") (fun _ => 0) (cstr "/r/b.dat")
        two_drops_then_match ⟨1, 5, true⟩).trace = [cstr "/r/b.dat"] ∧
      (send_until_success Endian.little (cstr "P3001") (fun _ => 0) (cstr "/r/b.dat")
        two_drops_then_match ⟨1, 5, true⟩).session.sendid = next_sendid 1 ∧
      opened (send_until_success Endian.little (cstr "P3001") (fun _ => 0) (cstr "/r/b.dat")
        two_drops_then_match ⟨1, 5, true⟩).trace = List.replicate (2 + 1) (cstr "/r/b.dat") :=
  ⟨by decide,
    (retry_one_unlink_one_advance Endian.little (cstr "P3001") (fun _ => 0) (cstr "/r/b.dat")
      two_drops_then_match ⟨1, 5, true⟩ 2 (by decide)
      (fun j hj fd => by
        have : j = 0 ∨ j = 1 := by omega
        rcases this with h | h <;> subst h <;> rfl)
      (fun j hj => by
        have : j = 0 ∨ j = 1 := by omega
        rcases this with h | h <;> subst h <;> decide)
      (fun fd => ⟨Nat.le_of_eq rfl, rfl⟩) (by decide)).2⟩

theorem send_loop_ceiling (host : Endian) (serialNum : List Nat) (before : Nat → Nat)
    (filepath : List Nat) (attempts : Nat → Attempt) (fuel i : Nat) (n : Int) (s : Session)
    (hn : n + 1 ≥ (NUMFAILURES : Int))
    (h : (send_file host serialNum s.sendid s.socket_des before filepath
      (attempts i).env).ret = some (-1)) :
    send_loop host serialNum before filepath attempts (fuel + 1) i n s =
      ⟨Outcome.exited,
        ⟨(send_file host serialNum s.sendid s.socket_des before filepath
          (attempts i).env).sendid, s.socket_des, s.connected⟩,
        (send_file host serialNum s.sendid s.socket_des before filepath
          (attempts i).env).trace ++ [Effect.give_up (n + 1), Effect.safe_exit 1]⟩ := by
  conv => lhs; unfold send_loop
  simp only [h]
  rw [if_pos trivial, if_pos hn]

theorem send_loop_give_up_only (host : Endian) (serialNum : List Nat) (before : Nat → Nat)
    (filepath : List Nat) (attempts : Nat → Attempt) :
    ∀ (fuel i : Nat) (n : Int) (s : Session),
      give_ups (send_loop host serialNum before filepath attempts fuel i n s).trace ≠ [] →
      ∀ j : Nat, n + 1 + (j : Int) ≤ (NUMFAILURES : Int) →
        (∀ fd, (send_file host serialNum s.sendid fd before filepath
            (attempts (i + j)).env).ret = some (-1)) ∧
        (n + 1 + (j : Int) < (NUMFAILURES : Int) → (attempts (i + j)).socket ≠ none) := by
  intro fuel
  induction fuel with
  | zero => intro i n s h; simp [send_loop, give_ups] at h
  | succ fuel ih =>
    intro i n s h j hj
    have hg := send_file_give_ups host serialNum s.sendid s.socket_des before filepath
      (attempts i).env
    unfold send_loop at h
    simp only [] at h
    split at h
    · exact absurd hg h
    · rename_i result hres
      split at h
      · rename_i hr
        subst hr
        have hf := send_file_failed host serialNum s.sendid s.socket_des before filepath
          (attempts i).env (by rw [hres]; decide)
        split at h
        · rename_i hge
          have hj0 : j = 0 := by omega
          subst hj0
          refine ⟨fun fd => ?_, fun hlt => by omega⟩
          rw [send_file_ret_fd host serialNum s.sendid fd s.socket_des]
          exact hres
        · rename_i hlt
          split at h
          · exfalso
            apply h
            rw [give_ups_append, give_ups_append, hg]
            cases s.connected <;> rfl
          · rename_i fd hfd
            have hx : give_ups (send_loop host serialNum before filepath attempts fuel (i + 1)
                (n + 1) ⟨(send_file host serialNum s.sendid s.socket_des before filepath
                  (attempts i).env).sendid, fd, false⟩).trace ≠ [] := by
              intro hx
              apply h
              rw [give_ups_append, give_ups_append, give_ups_append, hg, hx]
              cases s.connected <;> rfl
            cases j with
            | zero =>
              refine ⟨fun fd2 => ?_, fun _ => by rw [Nat.add_zero, hfd]; simp⟩
              rw [send_file_ret_fd host serialNum s.sendid fd2 s.socket_des]
              exact hres
            | succ j =>
              have := ih (i + 1) (n + 1) _ hx j (by push_cast at hj ⊢; omega)
              simp only [hf.1] at this
              rw [show i + (j + 1) = i + 1 + j by omega]
              refine ⟨this.1, fun hlt2 => this.2 (by push_cast at hlt2 ⊢; omega)⟩
      · exact absurd hg h

/-- C10, amended: the failure counter of `send_until_success` counts the transport
failures of `send_file` since the call began and no result of `make_socket`
resets it. The process is ended by the retry ceiling exactly when the first
`NUMFAILURES + 1` attempts of the call all fail in transport (every `make_socket`
call in between returning, with a connection or without); it then reports
`numreconnects = NUMFAILURES`. The counter starts afresh, at -1, only with the
next call of `send_until_success`. -/
theorem retry_ceiling_counts_failed_sends (host : Endian) (serialNum : List Nat)
    (before : Nat → Nat) (filepath : List Nat) (attempts : Nat → Attempt) (s : Session) :
    (give_ups (send_until_success host serialNum before filepath attempts s).trace ≠ [] ↔
        ((∀ j, j ≤ NUMFAILURES → ∀ fd, (send_file host serialNum s.sendid fd before filepath
            (attempts j).env).ret = some (-1)) ∧
          (∀ j, j < NUMFAILURES → (attempts j).socket ≠ none))) ∧
      (give_ups (send_until_success host serialNum before filepath attempts s).trace ≠ [] →
        (send_until_success host serialNum before filepath attempts s).outcome
          = Outcome.exited ∧
        give_ups (send_until_success host serialNum before filepath attempts s).trace
          = [(NUMFAILURES : Int)]) := by
  have fwd : give_ups (send_until_success host serialNum before filepath attempts s).trace ≠ [] →
      ((∀ j, j ≤ NUMFAILURES → ∀ fd, (send_file host serialNum s.sendid fd before filepath
            (attempts j).env).ret = some (-1)) ∧
        (∀ j, j < NUMFAILURES → (attempts j).socket ≠ none)) := by
    intro h
    have key := send_loop_give_up_only host serialNum before filepath attempts
      (NUMFAILURES + 1) 0 (-1) s h
    constructor
    · intro j hj
      have := (key j (by have : (j : Int) ≤ (NUMFAILURES : Int) := by exact_mod_cast hj
                         omega)).1
      simpa using this
    · intro j hj
      have := (key j (by have : (j : Int) < (NUMFAILURES : Int) := by exact_mod_cast hj
                         omega)).2
        (by have : (j : Int) < (NUMFAILURES : Int) := by exact_mod_cast hj
            omega)
      simpa using this
  have bwd : ((∀ j, j ≤ NUMFAILURES → ∀ fd, (send_file host serialNum s.sendid fd before
            filepath (attempts j).env).ret = some (-1)) ∧
        (∀ j, j < NUMFAILURES → (attempts j).socket ≠ none)) →
      (send_until_success host serialNum before filepath attempts s).outcome
          = Outcome.exited ∧
        give_ups (send_until_success host serialNum before filepath attempts s).trace
          = [(NUMFAILURES : Int)] := by
    rintro ⟨hfail, hsock⟩
    obtain ⟨s2, tr, e1, _, e3, _, e5⟩ := send_loop_failures host serialNum before filepath
      attempts 1 NUMFAILURES 0 (-1) s
      (by intro j hj fd; simpa using hfail j (by omega) fd)
      (by intro j hj; simpa using hsock j hj)
      (by omega)
    have hlast := hfail NUMFAILURES (le_refl _) s2.socket_des
    rw [← e1] at hlast
    have hg := send_file_give_ups host serialNum s2.sendid s2.socket_des before filepath
      (attempts NUMFAILURES).env
    unfold send_until_success
    rw [show NUMFAILURES + 1 = 1 + NUMFAILURES by omega, e5, Nat.zero_add,
      send_loop_ceiling host serialNum before filepath attempts 0 NUMFAILURES _ s2
        (by omega) hlast]
    simp only []
    refine ⟨trivial, ?_⟩
    rw [give_ups_append, give_ups_append, e3, hg]
    simp [give_ups]
  refine ⟨⟨fwd, fun h => ?_⟩, fun h => bwd (fwd h)⟩
  rw [(bwd h).2]
  simp

/-- C10, counterexample: every attempt loses the connection at the first write and
every `make_socket` call succeeds (descriptor 7), so no two failures follow each
other without a successful `make_socket` in between; the process is ended by the
retry ceiling all the same, after 360 successful reconnects. -/
theorem retry_ceiling_despite_reconnects :
    (send_until_success Endian.little (cstr "P3001") (fun _ => 0) (cstr "/r/b.dat")
        (fun _ => drop_then_connect) ⟨1, 5, true⟩).outcome = Outcome.exited ∧
      give_ups (send_until_success Endian.little (cstr "P3001") (fun _ => 0) (cstr "/r/b.dat")
        (fun _ => drop_then_connect) ⟨1, 5, true⟩).trace = [360] ∧
      made_sockets (send_until_success Endian.little (cstr "P3001") (fun _ => 0)
        (cstr "/r/b.dat") (fun _ => drop_then_connect) ⟨1, 5, true⟩).trace
        = List.replicate 360 7 := by
  set_option maxRecDepth 1000000 in decide

/-! ## The event loop -/

/-- C8, the code at the failing input: a new-directory event `e` arrives on the
handle (5) of the slot at depth `MAXDEPTH`. The handler logs the warning and then
goes on: it reads `children[5]`, writes `children[5]`, adds a watch on the new
directory and starts a live scan of it at depth 6. -/
theorem new_directory_past_maxdepth_not_ignored :
    (table_full MAXDEPTH).fd = 5 ∧
      (handle_event sys_deep ⟨5, IN_CREATE ||| IN_ISDIR, 16, cstr "e"⟩ table_full).trace =
        [Effect.slot_read 4, Effect.warn_depth, Effect.slot_read 4, Effect.slot_read 5,
          Effect.slot_write 5, Effect.add_watch (cstr "/r/a/b/c/d/e/") 6,
          Effect.scan (cstr "/r/a/b/c/d/e/") 6 true] ∧
      (handle_event sys_deep ⟨5, IN_CREATE ||| IN_ISDIR, 16, cstr "e"⟩ table_full).children 5 =
        ⟨6, cstr "/r/a/b/c/d/e/"⟩ := by
  decide

theorem sends_append (a b : List Effect) : sends (a ++ b) = sends a ++ sends b := by
  induction a with
  | nil => rfl
  | cons e t ih => cases e <;> simp [sends, ih]

theorem deepest_active_top (t : Table) (h : (t (MAXDEPTH : Nat)).fd ≠ -1) :
    deepest_active t (MAXDEPTH + 1) = some MAXDEPTH := by
  show (if (t (MAXDEPTH : Nat)).fd ≠ -1 then some MAXDEPTH
    else deepest_active t MAXDEPTH) = some MAXDEPTH
  rw [if_pos h]

/-- C9: for every watch table and every file close-write event (its handle a
real one, not the sentinel -1), the handler calls `send_until_success` only if
the slot at depth `MAXDEPTH` is active, is therefore the deepest active slot of
the table, and its handle equals the handle of the event; an event on the handle
of a shallower slot, that handle differing from the one of the deepest active
slot, triggers no send. -/
theorem close_write_sends_only_for_deepest (sys : Sys) (ev : Event) (t : Table)
    (hlen : ev.len ≠ 0) (hcw : IN_CLOSE_WRITE &&& ev.mask ≠ 0)
    (hfile : IN_ISDIR &&& ev.mask = 0) (hwd : ev.wd ≠ -1) :
    (sends (handle_event sys ev t).trace ≠ [] →
        ∃ d, deepest_active t (MAXDEPTH + 1) = some d ∧ (t d).fd = ev.wd) ∧
      (∀ d dmax : Nat, deepest_active t (MAXDEPTH + 1) = some dmax → d < dmax →
        (t d).fd = ev.wd → (t d).fd ≠ (t dmax).fd →
        sends (handle_event sys ev t).trace = []) := by
  have hnodir : ¬ (IN_CREATE &&& ev.mask ≠ 0 ∧ IN_ISDIR &&& ev.mask ≠ 0) :=
    fun h => h.2 hfile
  have hbranch : IN_CLOSE_WRITE &&& ev.mask ≠ 0 ∧ ¬ (IN_ISDIR &&& ev.mask ≠ 0) :=
    ⟨hcw, fun h => h hfile⟩
  have key : sends (handle_event sys ev t).trace ≠ [] → (t MAXDEPTH).fd = ev.wd := by
    unfold handle_event
    rw [if_neg hlen, if_neg hnodir, if_pos hbranch]
    split
    · intro _; assumption
    · intro h; simp [sends] at h
  constructor
  · intro h
    have h4 := key h
    refine ⟨MAXDEPTH, ?_, h4⟩
    exact deepest_active_top t (by rw [h4]; exact hwd)
  · intro d dmax hd hlt he hne
    by_contra hs
    have h4 := key hs
    have hact : (t (MAXDEPTH : Nat)).fd ≠ -1 := by rw [h4]; exact hwd
    have := deepest_active_top t hact
    rw [this] at hd
    have hdm : dmax = MAXDEPTH := (Option.some.inj hd).symm
    apply hne
    rw [he, hdm, h4]

/-- C9, witness: with the chain live down to depth 4, a close-write event for
`f.dat` on the handle 5 of the deepest slot sends `/r/a/b/c/d/f.dat`. -/
theorem close_write_sends_only_for_deepest_witness :
    ((16 : Nat) ≠ 0 ∧ IN_CLOSE_WRITE &&& IN_CLOSE_WRITE ≠ 0 ∧
      IN_ISDIR &&& IN_CLOSE_WRITE = 0 ∧ (5 : Int) ≠ -1) ∧
    sends (handle_event sys_deep ⟨5, IN_CLOSE_WRITE, 16, cstr "f.dat"⟩ table_full).trace
      = [cstr "/r/a/b/c/d/f.dat"] ∧
    ∃ d, deepest_active table_full (MAXDEPTH + 1) = some d ∧ (table_full d).fd = 5 :=
  ⟨⟨by decide, by decide, by decide, by decide⟩, by decide,
    (close_write_sends_only_for_deepest sys_deep ⟨5, IN_CLOSE_WRITE, 16, cstr "f.dat"⟩
      table_full (by decide) (by decide) (by decide) (by decide)).1 (by decide)⟩
/-! ## The order of `strcmp` and the sort -/

theorem strcmp_total : ∀ (a b : List Nat), strcmp a b ≤ 0 ∨ strcmp b a ≤ 0 := by
  intro a
  induction a with
  | nil => intro b; cases b <;> simp [strcmp]
  | cons x t ih =>
    intro b
    cases b with
    | nil => simp [strcmp]
    | cons y u =>
      by_cases hxy : x = y
      · subst hxy; simpa [strcmp] using ih u
      · have hyx : ¬ y = x := fun h => hxy h.symm
        rcases Nat.lt_or_gt_of_ne hxy with h | h
        · left; simp [strcmp, hxy, h]
        · right; simp [strcmp, hyx, h]

theorem strcmp_trans : ∀ (a b c : List Nat),
    strcmp a b ≤ 0 → strcmp b c ≤ 0 → strcmp a c ≤ 0 := by
  intro a
  induction a with
  | nil => intro b c _ _; cases c <;> simp [strcmp]
  | cons x t ih =>
    intro b c h1 h2
    cases b with
    | nil => simp [strcmp] at h1
    | cons y u =>
      cases c with
      | nil => simp [strcmp] at h2
      | cons z v =>
        unfold strcmp at h1 h2 ⊢
        by_cases hxy : x = y
        · subst hxy
          rw [if_pos rfl] at h1
          by_cases hxz : x = z
          · subst hxz
            rw [if_pos rfl] at h2 ⊢
            exact ih u v h1 h2
          · rw [if_neg hxz] at h2 ⊢
            exact h2
        · rw [if_neg hxy] at h1
          have hlt : x < y := by
            by_contra hc
            rw [if_neg hc] at h1
            exact absurd h1 (by decide)
          by_cases hyz : y = z
          · subst hyz
            rw [if_neg hxy, if_pos hlt]; decide
          · rw [if_neg hyz] at h2
            have hlt2 : y < z := by
              by_contra hc
              rw [if_neg hc] at h2
              exact absurd h2 (by decide)
            rw [if_neg (by omega), if_pos (by omega)]; decide

theorem strcmp_antisymm : ∀ (a b : List Nat), strcmp a b ≤ 0 → strcmp b a ≤ 0 → a = b := by
  intro a
  induction a with
  | nil =>
    intro b _ h2
    cases b with
    | nil => rfl
    | cons y u => simp [strcmp] at h2
  | cons x t ih =>
    intro b h1 h2
    cases b with
    | nil => simp [strcmp] at h1
    | cons y u =>
      unfold strcmp at h1 h2
      by_cases hxy : x = y
      · subst hxy
        rw [if_pos rfl] at h1 h2
        rw [ih u h1 h2]
      · rw [if_neg hxy] at h1
        rw [if_neg (fun h => hxy h.symm)] at h2
        exfalso
        by_cases hlt : x < y
        · rw [if_neg (by omega)] at h2
          exact absurd h2 (by decide)
        · rw [if_neg hlt] at h1
          exact absurd h1 (by decide)

theorem sort_names_sorted (l : List (List Nat)) :
    List.Sorted (fun a b => strcmp a b ≤ 0) (sort_names l) := by
  haveI : IsTotal (List Nat) (fun a b => strcmp a b ≤ 0) := ⟨strcmp_total⟩
  haveI : IsTrans (List Nat) (fun a b => strcmp a b ≤ 0) := ⟨strcmp_trans⟩
  exact List.sorted_insertionSort _ l

theorem sort_names_perm (l : List (List Nat)) : (sort_names l).Perm l :=
  List.perm_insertionSort _ l

theorem sort_names_strict (l : List (List Nat)) (h : l.Nodup) :
    List.Sorted (fun a b => strcmp a b < 0) (sort_names l) := by
  have hs := sort_names_sorted l
  have hn : (sort_names l).Nodup := (sort_names_perm l).nodup_iff.mpr h
  unfold List.Sorted at hs ⊢
  unfold List.Nodup at hn
  refine (hs.and hn).imp ?_
  intro a b hab
  rcases lt_or_eq_of_le hab.1 with h1 | h1
  · exact h1
  · exact absurd (strcmp_eq_zero a b h1) hab.2

/-- Every ascending arrangement of the records is the one `qsort` returns. -/
theorem qsort_unique (l s : List (List Nat)) (hp : s.Perm l)
    (hs : List.Sorted (fun a b => file_entry_comparator a b ≤ 0) s) : s = qsort l := by
  haveI : IsAntisymm (List Nat) (fun a b => file_entry_comparator a b ≤ 0) :=
    ⟨strcmp_antisymm⟩
  exact List.eq_of_perm_of_sorted (hp.trans (sort_names_perm l).symm) hs (sort_names_sorted l)

theorem qsort_eq_sort_names (l : List (List Nat)) : qsort l = sort_names l := rfl

/-! ## The directory scan -/

theorem sent_at_append (d : Int) (a b : List Effect) :
    sent_at d (a ++ b) = sent_at d a ++ sent_at d b := by
  induction a with
  | nil => rfl
  | cons e t ih =>
    cases e with
    | send dd p =>
      cases dd with
      | none => simp [sent_at, ih]
      | some v => by_cases h : v = d <;> simp [sent_at, ih, h]
    | _ => simp [sent_at, ih]

theorem scans_at_append (d : Int) (a b : List Effect) :
    scans_at d (a ++ b) = scans_at d a ++ scans_at d b := by
  induction a with
  | nil => rfl
  | cons e t ih =>
    cases e with
    | scan p v l => by_cases h : v = d <;> simp [scans_at, ih, h]
    | _ => simp [scans_at, ih]

theorem strcmp_ne_zero_iff (a b : List Nat) : strcmp a b ≠ 0 ↔ a ≠ b := by
  constructor
  · intro h hab; exact h (hab ▸ strcmp_self a)
  · intro h h0; exact h (strcmp_eq_zero a b h0)

theorem read_entries_eq (dirpath : List Nat) :
    ∀ (es : List DirEnt) (fs ds F D : List (List Nat)),
      read_entries dirpath es fs ds = some (F, D) →
      F = fs ++ file_names es ∧
        D = ds ++ (subdir_names es).map (fun n => n ++ cstr "/") := by
  intro es
  induction es with
  | nil =>
    intro fs ds F D h
    simp [read_entries] at h
    simp [file_names, subdir_names, h.1, h.2]
  | cons e rest ih =>
    intro fs ds F D h
    unfold read_entries at h
    by_cases hdot : strcmp e.d_name (cstr ".") ≠ 0 ∧ strcmp e.d_name (cstr "..") ≠ 0
    · have hd1 : e.d_name ≠ cstr "." := (strcmp_ne_zero_iff _ _).mp hdot.1
      have hd2 : e.d_name ≠ cstr ".." := (strcmp_ne_zero_iff _ _).mp hdot.2
      rw [if_pos hdot] at h
      split at h
      · exact absurd h (by simp)
      · split at h
        · rename_i hk
          have := ih fs ds F D h
          simpa [file_names, subdir_names, hk] using this
        · rename_i hk
          split at h
          · exact absurd h (by simp)
          · have := ih _ _ F D h
            simpa [file_names, subdir_names, hk, hd1, hd2, List.append_assoc] using this
        · rename_i hk
          split at h
          · exact absurd h (by simp)
          · have := ih _ _ F D h
            simpa [file_names, subdir_names, hk, hd1, hd2, List.append_assoc] using this
        · rename_i hk
          have := ih fs ds F D h
          simpa [file_names, subdir_names, hk] using this
    · rw [if_neg hdot] at h
      have := ih fs ds F D h
      have hd : e.d_name = cstr "." ∨ e.d_name = cstr ".." := by
        by_contra hc
        push_neg at hc
        exact hdot ⟨(strcmp_ne_zero_iff _ _).mpr hc.1, (strcmp_ne_zero_iff _ _).mpr hc.2⟩
      have hf : ¬ (e.kind = Kind.regular ∧ e.d_name ≠ cstr "." ∧ e.d_name ≠ cstr "..") := by
        rintro ⟨_, h1, h2⟩; rcases hd with h | h
        · exact h1 h
        · exact h2 h
      have hs : ¬ (e.kind = Kind.directory ∧ e.d_name ≠ cstr "." ∧ e.d_name ≠ cstr "..") := by
        rintro ⟨_, h1, h2⟩; rcases hd with h | h
        · exact h1 h
        · exact h2 h
      simp only [file_names, subdir_names] at this ⊢
      rw [List.filter_cons_of_neg (by simpa using hf),
        List.filter_cons_of_neg (by simpa using hs)]
      exact this

theorem send_files_sent (sys : Sys) (dirpath : List Nat) (depth : Int) (live : Bool) :
    ∀ (files : List (List Nat)),
      (∀ d, d ≠ depth → sent_at d (send_files sys dirpath depth live files).2 = []) ∧
      (∀ d, scans_at d (send_files sys dirpath depth live files).2 = []) ∧
      ((send_files sys dirpath depth live files).1 = true →
        sent_at depth (send_files sys dirpath depth live files).2 =
          files.map (fun f => dirpath ++ f)) := by
  intro files
  induction files with
  | nil => simp [send_files, sent_at, scans_at]
  | cons f rest ih =>
    obtain ⟨h1, h2, h3⟩ := ih
    have hw1 : ∀ d, sent_at d (if live = true ∧ rest = [] then [Effect.sleep LASTFILEWAIT]
        else []) = [] := by
      intro d; split <;> rfl
    have hw2 : ∀ d, scans_at d (if live = true ∧ rest = [] then [Effect.sleep LASTFILEWAIT]
        else []) = [] := by
      intro d; split <;> rfl
    unfold send_files
    simp only []
    split
    · refine ⟨?_, ?_, ?_⟩
      · intro d hd
        rw [sent_at_append, hw1]
        simp [sent_at, Ne.symm hd]
      · intro d
        rw [scans_at_append, hw2]
        simp [scans_at]
      · intro h; simp at h
    · refine ⟨?_, ?_, ?_⟩
      · intro d hd
        rw [sent_at_append, sent_at_append, hw1, h1 d hd]
        simp [sent_at, Ne.symm hd]
      · intro d
        rw [scans_at_append, scans_at_append, hw2, h2 d]
        simp [scans_at]
      · intro h
        rw [sent_at_append, sent_at_append, hw1, h3 h]
        simp [sent_at]
theorem scan_subdirs_trace (sys : Sys) (self : List Nat → Int → Bool → Table → ScanResult)
    (hself : WellTraced self) (dirpath : List Nat) (depth : Int) (live : Bool) :
    ∀ (subdirs : List (List Nat)) (t : Table),
      (∀ k, k ≤ depth → sent_at k (scan_subdirs sys self dirpath depth live subdirs t).trace = []) ∧
      (∀ k, k ≤ depth →
        scans_at k (scan_subdirs sys self dirpath depth live subdirs t).trace = []) ∧
      ((scan_subdirs sys self dirpath depth live subdirs t).outcome = Outcome.returned 0 →
        scans_at (depth + 1) (scan_subdirs sys self dirpath depth live subdirs t).trace =
          subdirs.map (fun d => dirpath ++ d)) := by
  intro subdirs
  induction subdirs with
  | nil => intro t; simp [scan_subdirs, sent_at, scans_at]
  | cons d rest ih =>
    intro t
    have hw1 : ∀ k, sent_at k (if (live && rest.isEmpty) = true then
        [Effect.add_watch (dirpath ++ d) (sys.add_watch (dirpath ++ d)),
          Effect.slot_write depth] else []) = [] := by
      intro k; split <;> rfl
    have hw2 : ∀ k, scans_at k (if (live && rest.isEmpty) = true then
        [Effect.add_watch (dirpath ++ d) (sys.add_watch (dirpath ++ d)),
          Effect.slot_write depth] else []) = [] := by
      intro k; split <;> rfl
    have hr1 : ∀ k, sent_at k (if (live && rest.isEmpty) = true then []
        else [Effect.remove_dir (dirpath ++ d)]) = [] := by
      intro k; split <;> rfl
    have hr2 : ∀ k, scans_at k (if (live && rest.isEmpty) = true then []
        else [Effect.remove_dir (dirpath ++ d)]) = [] := by
      intro k; split <;> rfl
    unfold scan_subdirs
    simp only []
    generalize hr : self (dirpath ++ d) (depth + 1) (live && rest.isEmpty)
      (if (live && rest.isEmpty) = true then
        set_slot t depth ⟨sys.add_watch (dirpath ++ d), dirpath ++ d⟩ else t) = r
    have hwt := hself (dirpath ++ d) (depth + 1) (live && rest.isEmpty)
      (if (live && rest.isEmpty) = true then
        set_slot t depth ⟨sys.add_watch (dirpath ++ d), dirpath ++ d⟩ else t)
    rw [hr] at hwt
    have hs : ∀ k, k ≤ depth → sent_at k r.trace = [] := by
      intro k hk
      rcases hwt with ⟨_, h⟩ | ⟨tl, h, hd⟩
      · rw [h]; rfl
      · rw [h]; simp only [sent_at]; exact hd.1 k (by omega)
    have hc : ∀ k, k ≤ depth → scans_at k r.trace = [] := by
      intro k hk
      rcases hwt with ⟨_, h⟩ | ⟨tl, h, hd⟩
      · rw [h]; rfl
      · rw [h]; simp only [scans_at]
        rw [if_neg (by omega)]
        exact hd.2 k (by omega)
    have hc1 : r.outcome ≠ Outcome.out_of_fuel →
        scans_at (depth + 1) r.trace = [dirpath ++ d] := by
      intro hne
      rcases hwt with ⟨h, _⟩ | ⟨tl, h, hd⟩
      · exact absurd h hne
      · rw [h]; simp only [scans_at]
        rw [if_pos trivial, hd.2 (depth + 1) (le_refl _)]
    obtain ⟨i1, i2, i3⟩ := ih r.children
    split
    · rename_i result hres
      split
      · refine ⟨?_, ?_, ?_⟩
        · intro k hk; rw [sent_at_append, hw1, hs k hk]; rfl
        · intro k hk; rw [scans_at_append, hw2, hc k hk]; rfl
        · intro h; simp at h
      · refine ⟨?_, ?_, ?_⟩
        · intro k hk
          rw [sent_at_append, sent_at_append, sent_at_append, hw1, hs k hk, hr1, i1 k hk]; rfl
        · intro k hk
          rw [scans_at_append, scans_at_append, scans_at_append, hw2, hc k hk, hr2, i2 k hk]; rfl
        · intro h
          rw [scans_at_append, scans_at_append, scans_at_append, hw2, hr2, i3 h,
            hc1 (by rw [hres]; simp)]
          rfl
    · rename_i o hno
      refine ⟨?_, ?_, ?_⟩
      · intro k hk; rw [sent_at_append, hw1, hs k hk]; rfl
      · intro k hk; rw [scans_at_append, hw2, hc k hk]; rfl
      · intro h
        exact absurd h (by
          intro h0
          exact hno 0 h0)

theorem processdir_body_trace (sys : Sys)
    (self : List Nat → Int → Bool → Table → ScanResult) (hself : WellTraced self)
    (dirpath : List Nat) (depth : Int) (live : Bool) (t : Table) :
    ∃ rest, (processdir_body sys self dirpath depth live t).trace =
        Effect.scan dirpath depth live :: rest ∧ Deeper depth rest := by
  unfold processdir_body
  simp only []
  split
  · exact ⟨[], rfl, fun _ _ => rfl, fun _ _ => rfl⟩
  · split
    · exact ⟨[], rfl, fun _ _ => rfl, fun _ _ => rfl⟩
    · split
      · exact ⟨[], rfl, fun _ _ => rfl, fun _ _ => rfl⟩
      · rename_i arrs _
        obtain ⟨f1, f2, _⟩ := send_files_sent sys dirpath depth live (qsort arrs.1)
        split
        · exact ⟨_, rfl, fun k hk => f1 k (by omega), fun k _ => f2 k⟩
        · obtain ⟨s1, s2, _⟩ := scan_subdirs_trace sys self hself dirpath depth live
            (qsort arrs.2) t
          refine ⟨(send_files sys dirpath depth live (qsort arrs.1)).2 ++
            (scan_subdirs sys self dirpath depth live (qsort arrs.2) t).trace, rfl, ?_, ?_⟩
          · intro k hk
            rw [sent_at_append, f1 k (by omega), s1 k (by omega)]; rfl
          · intro k hk
            rw [scans_at_append, f2 k, s2 k hk]; rfl

theorem processdir_well_traced (sys : Sys) (fuel : Nat) : WellTraced (processdir sys fuel) := by
  induction fuel with
  | zero => intro path d live t; left; exact ⟨rfl, rfl⟩
  | succ fuel ih =>
    intro path d live t
    right
    exact processdir_body_trace sys (processdir sys fuel) ih path d live t

/-- C7, counterexample: the directory `/r/` lists the subdirectories `a` and `a.b`.
Sorted byte-wise by name they are `a`, `a.b`; the scan recurses into `/r/a.b/`
first and `/r/a/` second, because it sorts the names with `/` appended and `.`
(46) is below `/` (47). -/
theorem subdirs_not_in_name_order :
    (processdir sys_two_dirs FULLPATHLEN (cstr "/r/") 1 true table_root).outcome
        = Outcome.returned 0 ∧
      sort_names (subdir_names [⟨cstr "x.dat", Kind.regular⟩, ⟨cstr "a", Kind.directory⟩,
        ⟨cstr "a.dat", Kind.regular⟩, ⟨cstr "a.b", Kind.directory⟩]) = [cstr "a", cstr "a.b"] ∧
      scans_at 2 (processdir sys_two_dirs FULLPATHLEN (cstr "/r/") 1 true table_root).trace
        = [cstr "/r/a.b/", cstr "/r/a/"] := by
  decide

theorem sent_at_scan_cons (k : Int) (p : List Nat) (d : Int) (l : Bool) (t : List Effect) :
    sent_at k (Effect.scan p d l :: t) = sent_at k t := rfl

theorem scans_at_scan_cons (k : Int) (p : List Nat) (d : Int) (l : Bool) (t : List Effect) :
    scans_at k (Effect.scan p d l :: t) =
      if d = k then p :: scans_at k t else scans_at k t := rfl

theorem nodup_file_names (entries : List DirEnt) (h : (entries.map DirEnt.d_name).Nodup) :
    (file_names entries).Nodup :=
  h.sublist (List.Sublist.map _ (List.filter_sublist _))

theorem nodup_subdir_names (entries : List DirEnt) (h : (entries.map DirEnt.d_name).Nodup) :
    ((subdir_names entries).map (fun n => n ++ cstr "/")).Nodup := by
  have h1 : (subdir_names entries).Nodup :=
    h.sublist (List.Sublist.map _ (List.filter_sublist _))
  exact h1.map (fun a b hab => List.append_cancel_right hab)

theorem processdir_body_order (sys : Sys)
    (self : List Nat → Int → Bool → Table → ScanResult) (hself : WellTraced self)
    (dirpath : List Nat) (depth : Int) (live : Bool) (t : Table) (entries : List DirEnt)
    (hl : sys.listing dirpath = some entries) :
    (processdir_body sys self dirpath depth live t).outcome = Outcome.returned 0 →
    sent_at depth (processdir_body sys self dirpath depth live t).trace =
        (sort_names (file_names entries)).map (fun f => dirpath ++ f) ∧
      scans_at (depth + 1) (processdir_body sys self dirpath depth live t).trace =
        (sort_names ((subdir_names entries).map (fun n => n ++ cstr "/"))).map
          (fun d => dirpath ++ d) := by
  unfold processdir_body
  simp only []
  split
  · intro h; simp at h
  · split
    · rename_i hnone
      rw [hl] at hnone
      exact absurd hnone (by simp)
    · rename_i es hsome
      rw [hl] at hsome
      have hes : es = entries := (Option.some.inj hsome).symm
      subst hes
      split
      · intro h; simp at h
      · rename_i arrs harr
        obtain ⟨ef, ed⟩ := read_entries_eq dirpath es [] [] arrs.1 arrs.2 harr
        simp only [List.nil_append] at ef ed
        obtain ⟨f1, f2, f3⟩ := send_files_sent sys dirpath depth live (qsort arrs.1)
        obtain ⟨s1, s2, s3⟩ := scan_subdirs_trace sys self hself dirpath
          depth live (qsort arrs.2) t
        split
        · intro h; simp at h
        · rename_i hsent
          intro h
          constructor
          · dsimp only
            rw [List.cons_append, sent_at_scan_cons, sent_at_append, f3 (by simpa using hsent),
              s1 depth (le_refl _), ef, qsort_eq_sort_names, List.append_nil]
          · dsimp only
            rw [List.cons_append, scans_at_scan_cons, if_neg (by omega), scans_at_append, f2, s3 h, ed,
              qsort_eq_sort_names, List.nil_append]

/-- C7, amended: for every directory listing with distinct names that
`processdir` scans to the end (it returns 0), the files are handed to
`send_until_success` strictly ascending by byte-wise comparison of their names
as listed (the sequence is `sort` of the file names), and the subdirectories are
recursed into strictly ascending by byte-wise comparison of their names followed
by `/`, the form in which the scan stores and sorts them (the sequence is `sort`
of the names with `/` appended). -/
theorem processdir_order (sys : Sys) (fuel : Nat) (dirpath : List Nat) (depth : Int)
    (live : Bool) (t : Table) (entries : List DirEnt)
    (hl : sys.listing dirpath = some entries)
    (hnd : (entries.map DirEnt.d_name).Nodup)
    (hret : (processdir sys fuel dirpath depth live t).outcome = Outcome.returned 0) :
    sent_at depth (processdir sys fuel dirpath depth live t).trace =
        (sort_names (file_names entries)).map (fun f => dirpath ++ f) ∧
      List.Sorted (fun a b => strcmp a b < 0) (sort_names (file_names entries)) ∧
      (sort_names (file_names entries)).Perm (file_names entries) ∧
      scans_at (depth + 1) (processdir sys fuel dirpath depth live t).trace =
        (sort_names ((subdir_names entries).map (fun n => n ++ cstr "/"))).map
          (fun d => dirpath ++ d) ∧
      List.Sorted (fun a b => strcmp a b < 0)
        (sort_names ((subdir_names entries).map (fun n => n ++ cstr "/"))) ∧
      (sort_names ((subdir_names entries).map (fun n => n ++ cstr "/"))).Perm
        ((subdir_names entries).map (fun n => n ++ cstr "/")) := by
  cases fuel with
  | zero => simp [processdir] at hret
  | succ fuel =>
    have h := processdir_body_order sys (processdir sys fuel) (processdir_well_traced sys fuel)
      dirpath depth live t entries hl hret
    exact ⟨h.1, sort_names_strict _ (nodup_file_names entries hnd), sort_names_perm _, h.2,
      sort_names_strict _ (nodup_subdir_names entries hnd), sort_names_perm _⟩
/-- C7, witness: the scan of `/r/` (files `x.dat`, `a.dat`; subdirectories `a`,
`a.b`) returns 0; it sends `a.dat` before `x.dat` and enters `a.b/` before `a/`. -/
theorem processdir_order_witness :
    (sys_two_dirs.listing (cstr "/r/") =
        some [⟨cstr "x.dat", Kind.regular⟩, ⟨cstr "a", Kind.directory⟩,
          ⟨cstr "a.dat", Kind.regular⟩, ⟨cstr "a.b", Kind.directory⟩] ∧
      (processdir sys_two_dirs FULLPATHLEN (cstr "/r/") 1 true table_root).outcome
        = Outcome.returned 0) ∧
    sent_at 1 (processdir sys_two_dirs FULLPATHLEN (cstr "/r/") 1 true table_root).trace =
      (sort_names (file_names [⟨cstr "x.dat", Kind.regular⟩, ⟨cstr "a", Kind.directory⟩,
          ⟨cstr "a.dat", Kind.regular⟩, ⟨cstr "a.b", Kind.directory⟩])).map
        (fun f => cstr "/r/" ++ f) ∧
    scans_at (1 + 1) (processdir sys_two_dirs FULLPATHLEN (cstr "/r/") 1 true table_root).trace =
      (sort_names ((subdir_names [⟨cstr "x.dat", Kind.regular⟩, ⟨cstr "a", Kind.directory⟩,
          ⟨cstr "a.dat", Kind.regular⟩, ⟨cstr "a.b", Kind.directory⟩]).map
        (fun n => n ++ cstr "/"))).map (fun d => cstr "/r/" ++ d) :=
  ⟨⟨by decide, by decide⟩,
    (processdir_order sys_two_dirs FULLPATHLEN (cstr "/r/") 1 true table_root
      [⟨cstr "x.dat", Kind.regular⟩, ⟨cstr "a", Kind.directory⟩,
        ⟨cstr "a.dat", Kind.regular⟩, ⟨cstr "a.b", Kind.directory⟩]
      (by decide) (by decide) (by decide)).1,
    (processdir_order sys_two_dirs FULLPATHLEN (cstr "/r/") 1 true table_root
      [⟨cstr "x.dat", Kind.regular⟩, ⟨cstr "a", Kind.directory⟩,
        ⟨cstr "a.dat", Kind.regular⟩, ⟨cstr "a.b", Kind.directory⟩]
      (by decide) (by decide) (by decide)).2.2.2.1⟩

/-! ## The scan always ends -/

theorem scan_subdirs_fuel (sys : Sys) (self : List Nat → Int → Bool → Table → ScanResult)
    (dirpath : List Nat) (depth : Int) (live : Bool) :
    ∀ (subdirs : List (List Nat)) (t : Table),
      (∀ d, d ∈ subdirs → ∀ k l u, (self (dirpath ++ d) k l u).outcome ≠ Outcome.out_of_fuel) →
      (scan_subdirs sys self dirpath depth live subdirs t).outcome ≠ Outcome.out_of_fuel := by
  intro subdirs
  induction subdirs with
  | nil => intro t _; simp [scan_subdirs]
  | cons d rest ih =>
    intro t h
    have h0 := h d (List.mem_cons_self _ _) (depth + 1) (live && rest.isEmpty)
      (if (live && rest.isEmpty) = true then
        set_slot t depth ⟨sys.add_watch (dirpath ++ d), dirpath ++ d⟩ else t)
    unfold scan_subdirs
    simp only []
    split
    · split
      · simp
      · exact ih _ (fun d2 hd2 => h d2 (List.mem_cons_of_mem _ hd2))
    · rename_i o hno
      exact h0

theorem processdir_total (sys : Sys) :
    ∀ (fuel : Nat) (dirpath : List Nat) (depth : Int) (live : Bool) (t : Table),
      1 ≤ fuel → FULLPATHLEN - 4 ≤ fuel + dirpath.length →
      (processdir sys fuel dirpath depth live t).outcome ≠ Outcome.out_of_fuel := by
  intro fuel
  induction fuel with
  | zero => intro _ _ _ _ h; omega
  | succ fuel ih =>
    intro dirpath depth live t _ hsum
    show (processdir_body sys (processdir sys fuel) dirpath depth live t).outcome ≠ _
    unfold processdir_body
    simp only []
    split
    · simp
    · rename_i hlen
      split
      · simp
      · rename_i es _
        split
        · simp
        · rename_i arrs harr
          split
          · simp
          · apply scan_subdirs_fuel
            intro d hd k l u
            have hmem : d ∈ arrs.2 := ((sort_names_perm arrs.2).mem_iff).mp hd
            obtain ⟨_, ed⟩ := read_entries_eq dirpath es [] [] arrs.1 arrs.2 harr
            rw [ed, List.nil_append, List.mem_map] at hmem
            obtain ⟨n, _, hn⟩ := hmem
            have hdl : 1 ≤ d.length := by
              rw [← hn, List.length_append]
              have : (cstr "/").length = 1 := rfl
              omega
            have hF : FULLPATHLEN = 96 := rfl
            apply ih
            · omega
            · rw [List.length_append]; omega

theorem keep_running_ne (o : Outcome) (h : o ≠ Outcome.out_of_fuel) :
    keep_running o ≠ Outcome.out_of_fuel := by
  cases o <;> simp_all [keep_running]

/-- Handling an event always ends: the loop goes on or the process exits. -/
theorem handle_event_total (sys : Sys) (ev : Event) (t : Table) :
    (handle_event sys ev t).outcome ≠ Outcome.out_of_fuel := by
  unfold handle_event
  split
  · simp
  · split
    · simp only []
      split
      · have h := processdir_total sys FULLPATHLEN
          ((t ((find_slot t ev.wd (MAXDEPTH + 1)).1 + 1 - 1)).path ++ ev.name ++ cstr "/")
          ((find_slot t ev.wd (MAXDEPTH + 1)).1 + 1 + 1) true
          (set_slot (teardown sys ((find_slot t ev.wd (MAXDEPTH + 1)).1 + 1) (MAXDEPTH + 1) t).1
            ((find_slot t ev.wd (MAXDEPTH + 1)).1 + 1)
            ⟨sys.add_watch ((t ((find_slot t ev.wd (MAXDEPTH + 1)).1 + 1 - 1)).path ++
              ev.name ++ cstr "/"),
              (t ((find_slot t ev.wd (MAXDEPTH + 1)).1 + 1 - 1)).path ++ ev.name ++ cstr "/"⟩)
          (by decide) (by have : FULLPATHLEN = 96 := rfl
                          omega)
        exact keep_running_ne _ h
      · simp
    · split
      · split
        · dsimp only
          split <;> simp
        · simp
      · simp
/-! ## The stores that build the header and the end of the buffer -/

theorem store_indices_bound (off : Nat) (bs : List Nat) (N : Nat) :
    (∀ i, i ∈ store_indices (off, bs) → i < N) ↔ (bs = [] ∨ off + bs.length ≤ N) := by
  unfold store_indices
  simp only [List.mem_map, List.mem_range]
  constructor
  · intro h
    cases bs with
    | nil => left; rfl
    | cons b t =>
      right
      have := h (off + t.length) ⟨t.length, by simp, rfl⟩
      simp only [List.length_cons]
      omega
  · rintro (h | h) i ⟨k, hk, rfl⟩
    · subst h; simp at hk
    · omega

/-- The stores of the header stay inside the buffer exactly when the length of
the serial number is not a multiple of 4 (lengths below `2^29`). -/
theorem header_writes_in_bounds_iff (host : Endian) (sendid length : Nat)
    (filepath serialNum : List Nat)
    (hn : filepath.length < 536870912) (hs : serialNum.length < 536870912) :
    (∀ i, i ∈ header_write_indices host sendid length filepath serialNum →
        i < header_size filepath serialNum) ↔ serialNum.length % 4 ≠ 0 := by
  have rn := roundUp4_least filepath.length (by omega)
  have rs := roundUp4_least serialNum.length (by omega)
  have hsize : header_size filepath serialNum =
      16 + roundUp4 filepath.length + roundUp4 serialNum.length := by
    unfold header_size
    rw [Nat.mod_eq_of_lt (show filepath.length < 4294967296 by omega),
      Nat.mod_eq_of_lt (show serialNum.length < 4294967296 by omega),
      Nat.mod_eq_of_lt (by omega)]
  have key : ∀ (stores : List (Nat × List Nat)) (N : Nat),
      (∀ i, i ∈ List.range N ++ (stores.map store_indices).flatten → i < N) ↔
        ∀ st, st ∈ stores → (st.2 = [] ∨ st.1 + st.2.length ≤ N) := by
    intro stores N
    simp only [List.mem_append, List.mem_range, List.mem_flatten, List.mem_map]
    constructor
    · intro h st hst
      exact (store_indices_bound st.1 st.2 N).mp
        (fun i hi => h i (Or.inr ⟨_, ⟨st, hst, rfl⟩, hi⟩))
    · rintro h i (hi | ⟨l, ⟨st, hst, rfl⟩, hi⟩)
      · exact hi
      · exact (store_indices_bound st.1 st.2 N).mpr (h st hst) i hi
  unfold header_write_indices
  rw [key, hsize]
  unfold header_stores
  rw [Nat.mod_eq_of_lt (show filepath.length < 4294967296 by omega),
    Nat.mod_eq_of_lt (show serialNum.length < 4294967296 by omega)]
  simp only [List.mem_cons, List.mem_singleton, List.not_mem_nil, or_false, forall_eq_or_imp,
    forall_eq, u32bytes_length, List.length_append, List.length_singleton]
  constructor
  · rintro ⟨_, _, _, _, _, h6⟩
    rcases h6 with h6 | h6
    · simp at h6
    · omega
  · intro h
    refine ⟨Or.inr (by omega), Or.inr (by omega), Or.inr (by omega), Or.inr (by omega),
      Or.inr (by omega), Or.inr (by omega)⟩

/-- A store of the header build lands outside `data` exactly when the length of
the serial number is a multiple of 4 (lengths below `2^29`). -/
theorem header_overflow_iff (host : Endian) (sendid length : Nat)
    (filepath serialNum : List Nat)
    (hn : filepath.length < 536870912) (hs : serialNum.length < 536870912) :
    header_overflow host sendid length filepath serialNum = true ↔
      serialNum.length % 4 = 0 := by
  have h := header_writes_in_bounds_iff host sendid length filepath serialNum hn hs
  unfold header_overflow
  rw [List.any_eq_true]
  constructor
  · rintro ⟨i, hi, hge⟩
    by_contra h4
    have := h.mpr h4 i hi
    simp at hge
    omega
  · intro h4
    by_contra hno
    apply (h.mp ?_) h4
    intro i hi
    by_contra hlt
    exact hno ⟨i, hi, by simpa using hlt⟩

/-- C12, the code at the failing input: for the path `/r/a.dat` (8 bytes) and the
serial number `P3001035` (8 bytes) the header buffer has 32 bytes, and the
`strcpy` of the serial number, nine bytes from offset 24, stores its terminating
zero byte at index 32, one past the last byte of the buffer. -/
theorem serial_terminator_past_header_end :
    header_size (cstr "/r/a.dat") (cstr "P3001035") = 32 ∧
      (24, cstr "P3001035" ++ [0]) ∈
        header_stores Endian.little 1 8 8 3 (roundUp4 8) (cstr "/r/a.dat") (cstr "P3001035") ∧
      32 ∈ header_write_indices Endian.little 1 3 (cstr "/r/a.dat") (cstr "P3001035") ∧
      ¬ (∀ i, i ∈ header_write_indices Endian.little 1 3 (cstr "/r/a.dat") (cstr "P3001035") →
        i < header_size (cstr "/r/a.dat") (cstr "P3001035")) := by
  refine ⟨by decide, by decide, by decide, ?_⟩
  intro h
  exact absurd (h 32 (by decide)) (by decide)
/-! ## The start of `main` and events on unknown handles -/

/-- C13, the code at the failing input: the initialisation loop runs for
`i < MAXDEPTH`, so it sets the handles of the slots at depths 0 to 3 to -1 and
leaves the slot at depth `MAXDEPTH` with the handle 0 of static storage. After
a start on an empty root, the first new directory `a` in the root makes the
handler tear down that slot, which nothing installed: it calls
`inotify_rm_watch` on handle 0 and `remove_dir` on the empty path. -/
theorem init_loop_leaves_last_slot_active :
    (main_init 0).fd = -1 ∧ (main_init 1).fd = -1 ∧ (main_init 2).fd = -1 ∧
      (main_init 3).fd = -1 ∧ (main_init (MAXDEPTH : Nat)).fd = 0 ∧
      (main_start sys_fresh (cstr "/r")).trace =
        [Effect.add_watch (cstr "/r") 1, Effect.slot_write 0,
          Effect.scan (cstr "/r/") 1 true] ∧
      (handle_event sys_fresh ⟨1, IN_CREATE ||| IN_ISDIR, 16, cstr "a"⟩
          (main_start sys_fresh (cstr "/r")).children).trace =
        [Effect.slot_read 4, Effect.slot_read 3, Effect.slot_read 2, Effect.slot_read 1,
          Effect.slot_read 0, Effect.slot_read 0, Effect.slot_read 1,
          Effect.slot_read 4, Effect.rm_watch 0, Effect.remove_dir [],
          Effect.slot_read 3, Effect.slot_read 2, Effect.slot_read 1,
          Effect.slot_write 1, Effect.add_watch (cstr "/r/a/") 2,
          Effect.scan (cstr "/r/a/") 2 true] := by
  decide

/-- C14, the code at the failing input: a new-directory event `e` carries the
handle 9, which no slot holds. The search ends with `i = 0`; the handler reads
`children[-1]` as the parent, tears down every slot from depth 4 to the root at
depth 0, overwrites the root slot with the path `e/` and starts a live scan of
it at depth 1. -/
theorem unknown_handle_tears_down_root :
    (∀ k : Nat, k ≤ MAXDEPTH → (table_full k).fd ≠ 9) ∧
      (handle_event sys_deep ⟨9, IN_CREATE ||| IN_ISDIR, 16, cstr "e"⟩ table_full).trace =
        [Effect.slot_read 4, Effect.slot_read 3, Effect.slot_read 2, Effect.slot_read 1,
          Effect.slot_read 0, Effect.slot_read (-1), Effect.slot_read 0,
          Effect.slot_read 4, Effect.rm_watch 5, Effect.slot_write 4,
          Effect.remove_dir (cstr "/r/a/b/c/d/"),
          Effect.slot_read 3, Effect.rm_watch 4, Effect.slot_write 3,
          Effect.remove_dir (cstr "/r/a/b/c/"),
          Effect.slot_read 2, Effect.rm_watch 3, Effect.slot_write 2,
          Effect.remove_dir (cstr "/r/a/b/"),
          Effect.slot_read 1, Effect.rm_watch 2, Effect.slot_write 1,
          Effect.remove_dir (cstr "/r/a/"),
          Effect.slot_read 0, Effect.rm_watch 1, Effect.slot_write 0,
          Effect.remove_dir (cstr "/r/"),
          Effect.slot_write 0, Effect.add_watch (cstr "e/") 6,
          Effect.scan (cstr "e/") 1 true] ∧
      table_full 0 = ⟨1, cstr "/r/"⟩ ∧
      (handle_event sys_deep ⟨9, IN_CREATE ||| IN_ISDIR, 16, cstr "e"⟩ table_full).children 0 =
        ⟨6, cstr "e/"⟩ := by
  refine ⟨?_, by decide, by decide, by decide⟩
  intro k hk
  have : k = 0 ∨ k = 1 ∨ k = 2 ∨ k = 3 ∨ k = 4 := by
    have : MAXDEPTH = 4 := rfl
    omega
  rcases this with h | h | h | h | h <;> subst h <;> decide
/-! ## The subdirectory loop: watches and removals -/

theorem slot_writes_append (a b : List Effect) :
    slot_writes (a ++ b) = slot_writes a ++ slot_writes b := by
  induction a with
  | nil => rfl
  | cons e t ih => cases e <;> simp [slot_writes, ih]

theorem watch_adds_append (a b : List Effect) :
    watch_adds (a ++ b) = watch_adds a ++ watch_adds b := by
  induction a with
  | nil => rfl
  | cons e t ih => cases e <;> simp [watch_adds, ih]

theorem send_files_no_watch (sys : Sys) (dirpath : List Nat) (depth : Int) (live : Bool) :
    ∀ (files : List (List Nat)),
      slot_writes (send_files sys dirpath depth live files).2 = [] ∧
      watch_adds (send_files sys dirpath depth live files).2 = [] := by
  intro files
  induction files with
  | nil => exact ⟨rfl, rfl⟩
  | cons f rest ih =>
    have hw1 : slot_writes (if live = true ∧ rest = [] then [Effect.sleep LASTFILEWAIT]
        else []) = [] := by split <;> rfl
    have hw2 : watch_adds (if live = true ∧ rest = [] then [Effect.sleep LASTFILEWAIT]
        else []) = [] := by split <;> rfl
    unfold send_files
    simp only []
    split
    · constructor
      · rw [slot_writes_append, hw1]; rfl
      · rw [watch_adds_append, hw2]; rfl
    · constructor
      · rw [slot_writes_append, slot_writes_append, hw1, ih.1]; rfl
      · rw [watch_adds_append, watch_adds_append, hw2, ih.2]; rfl

theorem scan_subdirs_plan (sys : Sys) (self : List Nat → Int → Bool → Table → ScanResult)
    (dirpath : List Nat) (depth : Int) (live : Bool) :
    ∀ (subdirs : List (List Nat)) (t : Table),
      (scan_subdirs sys self dirpath depth live subdirs t).outcome = Outcome.returned 0 →
      ∃ ts : List Table, ts.length = subdirs.length ∧
        (∀ r, r ∈ nested_calls self dirpath depth live subdirs ts →
          ∃ v : Int, 0 ≤ v ∧ r.outcome = Outcome.returned v) ∧
        (scan_subdirs sys self dirpath depth live subdirs t).trace =
          subdir_plan sys dirpath depth live subdirs
            ((nested_calls self dirpath depth live subdirs ts).map ScanResult.trace) := by
  intro subdirs
  induction subdirs with
  | nil =>
    intro t _
    exact ⟨[], rfl, by intro r hr; simp [nested_calls] at hr, rfl⟩
  | cons d rest ih =>
    intro t
    unfold scan_subdirs
    simp only []
    generalize hr : self (dirpath ++ d) (depth + 1) (live && rest.isEmpty)
      (if (live && rest.isEmpty) = true then
        set_slot t depth ⟨sys.add_watch (dirpath ++ d), dirpath ++ d⟩ else t) = r
    split
    · rename_i result hres
      split
      · intro h; simp at h
      · rename_i hge
        intro h
        obtain ⟨ts, hlen, hall, htr⟩ := ih r.children h
        refine ⟨(if (live && rest.isEmpty) = true then
          set_slot t depth ⟨sys.add_watch (dirpath ++ d), dirpath ++ d⟩ else t) :: ts,
          by simp [hlen], ?_, ?_⟩
        · intro r2 hr2
          simp only [nested_calls, List.mem_cons] at hr2
          rcases hr2 with h2 | h2
          · rw [h2, hr]; exact ⟨result, by omega, hres⟩
          · exact hall r2 h2
        · simp only [nested_calls, List.map_cons, subdir_plan]
          rw [hr, htr]
          by_cases hlast : (live && rest.isEmpty) = true
          · have h2 : live = true ∧ rest = [] := by
              simpa [List.isEmpty_iff] using hlast
            rw [if_pos hlast, if_pos hlast, if_pos h2]
            simp
          · have h2 : ¬ (live = true ∧ rest = []) := by
              simpa [List.isEmpty_iff] using hlast
            rw [if_neg hlast, if_neg hlast, if_neg h2]
            simp
    · rename_i o hno
      intro h
      exact absurd h (fun h0 => hno 0 h0)
theorem scan_subdirs_slots (sys : Sys) (self : List Nat → Int → Bool → Table → ScanResult)
    (hself : SlotSafe self) (dirpath : List Nat) (depth : Int) (live : Bool) :
    ∀ (subdirs : List (List Nat)) (t : Table),
      (∀ k, k ∈ slot_writes (scan_subdirs sys self dirpath depth live subdirs t).trace →
        depth ≤ k) ∧
      (∀ i, i < depth → (scan_subdirs sys self dirpath depth live subdirs t).children i = t i) ∧
      (live = false →
        slot_writes (scan_subdirs sys self dirpath depth live subdirs t).trace = [] ∧
        watch_adds (scan_subdirs sys self dirpath depth live subdirs t).trace = [] ∧
        ∀ i, (scan_subdirs sys self dirpath depth live subdirs t).children i = t i) := by
  intro subdirs
  induction subdirs with
  | nil => intro t; simp [scan_subdirs, slot_writes, watch_adds]
  | cons d rest ih =>
    intro t
    unfold scan_subdirs
    simp only []
    obtain ⟨s1, s2, s3⟩ := hself (dirpath ++ d) (depth + 1) (live && rest.isEmpty)
      (if (live && rest.isEmpty) = true then
        set_slot t depth ⟨sys.add_watch (dirpath ++ d), dirpath ++ d⟩ else t)
    generalize hr : self (dirpath ++ d) (depth + 1) (live && rest.isEmpty)
      (if (live && rest.isEmpty) = true then
        set_slot t depth ⟨sys.add_watch (dirpath ++ d), dirpath ++ d⟩ else t) = r at s1 s2 s3
    obtain ⟨i1, i2, i3⟩ := ih r.children
    -- the table the recursive call starts from agrees with `t` below `depth`
    have ht1 : ∀ i, i < depth → (if (live && rest.isEmpty) = true then
        set_slot t depth ⟨sys.add_watch (dirpath ++ d), dirpath ++ d⟩ else t) i = t i := by
      intro i hi
      split
      · simp [set_slot]; intro h; omega
      · rfl
    have hw : ∀ k, k ∈ slot_writes (if (live && rest.isEmpty) = true then
        [Effect.add_watch (dirpath ++ d) (sys.add_watch (dirpath ++ d)),
          Effect.slot_write depth] else []) → depth ≤ k := by
      intro k hk
      split at hk
      · simp [slot_writes] at hk; omega
      · simp [slot_writes] at hk
    have hrm : slot_writes (if (live && rest.isEmpty) = true then []
        else [Effect.remove_dir (dirpath ++ d)]) = [] ∧
        watch_adds (if (live && rest.isEmpty) = true then []
        else [Effect.remove_dir (dirpath ++ d)]) = [] := by
      split <;> exact ⟨rfl, rfl⟩
    have hnl : live = false →
        slot_writes (if (live && rest.isEmpty) = true then
          [Effect.add_watch (dirpath ++ d) (sys.add_watch (dirpath ++ d)),
            Effect.slot_write depth] else []) = [] ∧
        watch_adds (if (live && rest.isEmpty) = true then
          [Effect.add_watch (dirpath ++ d) (sys.add_watch (dirpath ++ d)),
            Effect.slot_write depth] else []) = [] ∧
        (live && rest.isEmpty) = false ∧
        (∀ i, (if (live && rest.isEmpty) = true then
          set_slot t depth ⟨sys.add_watch (dirpath ++ d), dirpath ++ d⟩ else t) i = t i) := by
      intro hl
      subst hl
      simp [slot_writes, watch_adds]
    have base : (∀ k, k ∈ slot_writes ((if (live && rest.isEmpty) = true then
          [Effect.add_watch (dirpath ++ d) (sys.add_watch (dirpath ++ d)),
            Effect.slot_write depth] else []) ++ r.trace) → depth ≤ k) ∧
        (∀ i, i < depth → r.children i = t i) ∧
        (live = false →
          slot_writes ((if (live && rest.isEmpty) = true then
            [Effect.add_watch (dirpath ++ d) (sys.add_watch (dirpath ++ d)),
              Effect.slot_write depth] else []) ++ r.trace) = [] ∧
          watch_adds ((if (live && rest.isEmpty) = true then
            [Effect.add_watch (dirpath ++ d) (sys.add_watch (dirpath ++ d)),
              Effect.slot_write depth] else []) ++ r.trace) = [] ∧
          ∀ i, r.children i = t i) := by
      refine ⟨?_, ?_, ?_⟩
      · intro k hk
        rw [slot_writes_append, List.mem_append] at hk
        rcases hk with h | h
        · exact hw k h
        · have := s1 k h; omega
      · intro i hi
        rw [s2 i (by omega), ht1 i hi]
      · intro hl
        obtain ⟨a1, a2, a3, a4⟩ := hnl hl
        obtain ⟨b1, b2, b3⟩ := s3 a3
        refine ⟨?_, ?_, ?_⟩
        · rw [slot_writes_append, a1, b1]; rfl
        · rw [watch_adds_append, a2, b2]; rfl
        · intro i; rw [b3 i, a4 i]
    split
    · split
      · exact base
      · refine ⟨?_, ?_, ?_⟩
        · intro k hk
          rw [slot_writes_append, slot_writes_append, hrm.1, List.append_nil,
            List.mem_append] at hk
          rcases hk with h | h
          · exact base.1 k h
          · exact i1 k h
        · intro i hi
          rw [i2 i hi, base.2.1 i hi]
        · intro hl
          obtain ⟨c1, c2, c3⟩ := base.2.2 hl
          obtain ⟨d1, d2, d3⟩ := i3 hl
          refine ⟨?_, ?_, ?_⟩
          · rw [slot_writes_append, slot_writes_append, c1, hrm.1, d1]; rfl
          · rw [watch_adds_append, watch_adds_append, c2, hrm.2, d2]; rfl
          · intro i; rw [d3 i, c3 i]
    · exact base

theorem processdir_body_slots (sys : Sys)
    (self : List Nat → Int → Bool → Table → ScanResult) (hself : SlotSafe self) :
    SlotSafe (processdir_body sys self) := by
  intro dirpath depth live t
  unfold processdir_body
  simp only []
  split
  · simp [slot_writes, watch_adds]
  · split
    · simp [slot_writes, watch_adds]
    · split
      · simp [slot_writes, watch_adds]
      · rename_i arrs _
        obtain ⟨f1, f2⟩ := send_files_no_watch sys dirpath depth live (qsort arrs.1)
        split
        · simp [slot_writes, watch_adds, f1, f2]
        · obtain ⟨s1, s2, s3⟩ := scan_subdirs_slots sys self hself dirpath depth live
            (qsort arrs.2) t
          dsimp only
          refine ⟨?_, s2, ?_⟩
          · intro k hk
            rw [List.cons_append] at hk
            simp only [slot_writes] at hk
            rw [slot_writes_append, f1, List.nil_append] at hk
            exact s1 k hk
          · intro hl
            obtain ⟨a1, a2, a3⟩ := s3 hl
            refine ⟨?_, ?_, a3⟩
            · rw [List.cons_append]
              simp only [slot_writes]
              rw [slot_writes_append, f1, a1]; rfl
            · rw [List.cons_append]
              simp only [watch_adds]
              rw [watch_adds_append, f2, a2]; rfl

theorem processdir_slot_safe (sys : Sys) (fuel : Nat) : SlotSafe (processdir sys fuel) := by
  induction fuel with
  | zero => intro path d live t; simp [processdir, slot_writes, watch_adds]
  | succ fuel ih => exact processdir_body_slots sys (processdir sys fuel) ih
theorem scan_subdirs_live (sys : Sys) (self : List Nat → Int → Bool → Table → ScanResult)
    (hself : SlotSafe self) (dirpath : List Nat) (depth : Int) :
    ∀ (subdirs : List (List Nat)) (t : Table), subdirs ≠ [] →
      (scan_subdirs sys self dirpath depth true subdirs t).outcome = Outcome.returned 0 →
      ∃ (ws : List Int) (last : List Nat),
        slot_writes (scan_subdirs sys self dirpath depth true subdirs t).trace = depth :: ws ∧
        (∀ k, k ∈ ws → depth < k) ∧
        subdirs.getLast? = some last ∧
        (scan_subdirs sys self dirpath depth true subdirs t).children depth =
          ⟨sys.add_watch (dirpath ++ last), dirpath ++ last⟩ := by
  intro subdirs
  induction subdirs with
  | nil => intro t h; exact absurd rfl h
  | cons d rest ih =>
    intro t _
    cases rest with
    | nil =>
      obtain ⟨s1, s2, _⟩ := hself (dirpath ++ d) (depth + 1) true
        (set_slot t depth ⟨sys.add_watch (dirpath ++ d), dirpath ++ d⟩)
      unfold scan_subdirs
      simp only [Bool.true_and, List.isEmpty_nil, if_true]
      generalize self (dirpath ++ d) (depth + 1) true
        (set_slot t depth ⟨sys.add_watch (dirpath ++ d), dirpath ++ d⟩) = r at s1 s2
      split
      · split
        · intro h; simp at h
        · intro _
          refine ⟨slot_writes r.trace, d, ?_, ?_, rfl, ?_⟩
          · simp [scan_subdirs, slot_writes, slot_writes_append]
          · intro k hk; have := s1 k hk; omega
          · simp only [scan_subdirs]
            rw [s2 depth (by omega)]
            simp [set_slot]
      · rename_i o hno
        intro h
        exact absurd h (fun h0 => hno 0 h0)
    | cons d2 rest2 =>
      obtain ⟨_, _, s3⟩ := hself (dirpath ++ d) (depth + 1) false t
      obtain ⟨b1, _, _⟩ := s3 rfl
      unfold scan_subdirs
      simp only [Bool.true_and, List.isEmpty_cons, Bool.false_eq_true, if_false]
      generalize self (dirpath ++ d) (depth + 1) false t = r at b1
      split
      · split
        · intro h; simp at h
        · intro h
          obtain ⟨ws, last, e1, e2, e3, e4⟩ := ih r.children (by simp) h
          refine ⟨ws, last, ?_, e2, ?_, e4⟩
          · dsimp only
            rw [slot_writes_append, slot_writes_append, List.nil_append, b1, e1]
            rfl
          · rw [List.getLast?_cons_cons]; exact e3
      · rename_i o hno
        intro h
        exact absurd h (fun h0 => hno 0 h0)
theorem processdir_body_returned (sys : Sys)
    (self : List Nat → Int → Bool → Table → ScanResult)
    (dirpath : List Nat) (depth : Int) (live : Bool) (t : Table) (entries : List DirEnt)
    (hl : sys.listing dirpath = some entries) :
    (processdir_body sys self dirpath depth live t).outcome = Outcome.returned 0 →
    (scan_subdirs sys self dirpath depth live
        (sort_names ((subdir_names entries).map (fun n => n ++ cstr "/"))) t).outcome
        = Outcome.returned 0 ∧
      (processdir_body sys self dirpath depth live t).children =
        (scan_subdirs sys self dirpath depth live
          (sort_names ((subdir_names entries).map (fun n => n ++ cstr "/"))) t).children ∧
      (processdir_body sys self dirpath depth live t).trace =
        Effect.scan dirpath depth live ::
          ((send_files sys dirpath depth live (sort_names (file_names entries))).2 ++
            (scan_subdirs sys self dirpath depth live
              (sort_names ((subdir_names entries).map (fun n => n ++ cstr "/"))) t).trace) := by
  unfold processdir_body
  simp only []
  split
  · intro h; simp at h
  · split
    · rename_i hnone
      rw [hl] at hnone
      exact absurd hnone (by simp)
    · rename_i es hsome
      rw [hl] at hsome
      have hes : es = entries := (Option.some.inj hsome).symm
      subst hes
      split
      · intro h; simp at h
      · rename_i arrs harr
        obtain ⟨ef, ed⟩ := read_entries_eq dirpath es [] [] arrs.1 arrs.2 harr
        simp only [List.nil_append] at ef ed
        rw [ef, ed, qsort_eq_sort_names, qsort_eq_sort_names]
        split
        · intro h; simp at h
        · intro h
          exact ⟨h, rfl, rfl⟩

/-- C11, counterexample: the live scan of `/r/` at depth 1, with the
subdirectories `a` and `a.b`, returns 0. The last subdirectory in sorted order
of the names is `a.b`; the single watch is added on `/r/a/` and stored in slot 1,
and `remove_dir` is attempted on `/r/a.b/`, which was recursed into non-live. -/
theorem watch_not_on_last_name :
    (processdir sys_two_dirs FULLPATHLEN (cstr "/r/") 1 true table_root).outcome
        = Outcome.returned 0 ∧
      (sort_names (subdir_names [⟨cstr "x.dat", Kind.regular⟩, ⟨cstr "a", Kind.directory⟩,
        ⟨cstr "a.dat", Kind.regular⟩, ⟨cstr "a.b", Kind.directory⟩])).getLast?
        = some (cstr "a.b") ∧
      watch_adds (processdir sys_two_dirs FULLPATHLEN (cstr "/r/") 1 true table_root).trace
        = [cstr "/r/a/"] ∧
      (processdir sys_two_dirs FULLPATHLEN (cstr "/r/") 1 true table_root).children 1
        = ⟨3, cstr "/r/a/"⟩ ∧
      removed_dirs (processdir sys_two_dirs FULLPATHLEN (cstr "/r/") 1 true table_root).trace
        = [cstr "/r/a.b/"] ∧
      Effect.scan (cstr "/r/a.b/") 2 false ∈
        (processdir sys_two_dirs FULLPATHLEN (cstr "/r/") 1 true table_root).trace ∧
      Effect.scan (cstr "/r/a/") 2 true ∈
        (processdir sys_two_dirs FULLPATHLEN (cstr "/r/") 1 true table_root).trace := by
  decide

/-- C11, amended: for every call of `processdir` at depth `d` whose listing has at
least one subdirectory and that returns 0 (every recursive call succeeds), the
actions of the call are its entry, the sends of its files and then, for the
subdirectories in the order of the scan (ascending by name with `/` appended,
which decides which one is last), the plan of the specification: each
subdirectory but the last of a live scan is recursed into non-live and then
`remove_dir` is attempted on it; the last subdirectory of a live scan gets a
watch stored in slot `d` before it is recursed into, live, and is not removed.
A live scan writes slot `d` exactly once and leaves the watch on the last
subdirectory there; a non-live scan writes no slot, adds no watch and leaves the
whole table as it was. -/
theorem processdir_subdirectories (sys : Sys) (fuel : Nat) (dirpath : List Nat)
    (depth : Int) (live : Bool) (t : Table) (entries : List DirEnt)
    (hl : sys.listing dirpath = some entries)
    (hn : subdir_names entries ≠ [])
    (hret : (processdir sys (fuel + 1) dirpath depth live t).outcome = Outcome.returned 0) :
    ∃ ts : List Table,
      ts.length = (subdir_names entries).length ∧
      (∀ r, r ∈ nested_calls (processdir sys fuel) dirpath depth live
          (sort_names ((subdir_names entries).map (fun n => n ++ cstr "/"))) ts →
        ∃ v : Int, 0 ≤ v ∧ r.outcome = Outcome.returned v) ∧
      (processdir sys (fuel + 1) dirpath depth live t).trace =
        Effect.scan dirpath depth live ::
          ((send_files sys dirpath depth live (sort_names (file_names entries))).2 ++
            subdir_plan sys dirpath depth live
              (sort_names ((subdir_names entries).map (fun n => n ++ cstr "/")))
              ((nested_calls (processdir sys fuel) dirpath depth live
                (sort_names ((subdir_names entries).map (fun n => n ++ cstr "/")))
                ts).map ScanResult.trace)) ∧
      (live = true →
        ∃ last, (sort_names ((subdir_names entries).map (fun n => n ++ cstr "/"))).getLast?
            = some last ∧
          (slot_writes (processdir sys (fuel + 1) dirpath depth live t).trace).count depth = 1 ∧
          (processdir sys (fuel + 1) dirpath depth live t).children depth =
            ⟨sys.add_watch (dirpath ++ last), dirpath ++ last⟩) ∧
      (live = false →
        slot_writes (processdir sys (fuel + 1) dirpath depth live t).trace = [] ∧
        watch_adds (processdir sys (fuel + 1) dirpath depth live t).trace = [] ∧
        ∀ i, (processdir sys (fuel + 1) dirpath depth live t).children i = t i) := by
  have hsafe := processdir_slot_safe sys fuel
  obtain ⟨ho, hc, htr⟩ := processdir_body_returned sys (processdir sys fuel) dirpath depth
    live t entries hl hret
  obtain ⟨ts, hlen, hall, hplan⟩ := scan_subdirs_plan sys (processdir sys fuel) dirpath depth
    live _ t ho
  have hperm := sort_names_perm ((subdir_names entries).map (fun n => n ++ cstr "/"))
  have hne : sort_names ((subdir_names entries).map (fun n => n ++ cstr "/")) ≠ [] := by
    intro h0
    rw [h0] at hperm
    have := hperm.length_eq
    simp at this
    exact hn (List.length_eq_zero.mp this.symm)
  have hfiles := send_files_no_watch sys dirpath depth live (sort_names (file_names entries))
  have htrace : (processdir sys (fuel + 1) dirpath depth live t).trace = _ := htr
  have hchildren : (processdir sys (fuel + 1) dirpath depth live t).children = _ := hc
  refine ⟨ts, ?_, hall, ?_, ?_, ?_⟩
  · rw [hlen, hperm.length_eq, List.length_map]
  · rw [htrace, hplan]
  · intro hlive
    subst hlive
    obtain ⟨ws, last, e1, e2, e3, e4⟩ := scan_subdirs_live sys (processdir sys fuel) hsafe
      dirpath depth _ t hne ho
    refine ⟨last, e3, ?_, ?_⟩
    · rw [htrace]
      simp only [slot_writes]
      rw [slot_writes_append, hfiles.1, List.nil_append, e1, List.count_cons_self,
        List.count_eq_zero.mpr (fun h => by have := e2 depth h; omega)]
    · rw [hchildren]; exact e4
  · intro hlive
    exact ((processdir_slot_safe sys (fuel + 1)) dirpath depth live t).2.2 hlive

/-- C11, amended, witness: the live scan of `/r/` at depth 1 (subdirectories `a` and `a.b`,
both empty) returns 0; its two recursive calls and its single write of slot 1
are as the theorem says. -/
theorem processdir_subdirectories_witness :
    (sys_two_dirs.listing (cstr "/r/") =
        some [⟨cstr "x.dat", Kind.regular⟩, ⟨cstr "a", Kind.directory⟩,
          ⟨cstr "a.dat", Kind.regular⟩, ⟨cstr "a.b", Kind.directory⟩] ∧
      subdir_names [⟨cstr "x.dat", Kind.regular⟩, ⟨cstr "a", Kind.directory⟩,
          ⟨cstr "a.dat", Kind.regular⟩, ⟨cstr "a.b", Kind.directory⟩] ≠ [] ∧
      (processdir sys_two_dirs (95 + 1) (cstr "/r/") 1 true table_root).outcome
        = Outcome.returned 0) ∧
    ∃ ts : List Table,
      ts.length = (subdir_names [⟨cstr "x.dat", Kind.regular⟩, ⟨cstr "a", Kind.directory⟩,
          ⟨cstr "a.dat", Kind.regular⟩, ⟨cstr "a.b", Kind.directory⟩]).length ∧
      (∃ last, (sort_names ((subdir_names [⟨cstr "x.dat", Kind.regular⟩,
            ⟨cstr "a", Kind.directory⟩, ⟨cstr "a.dat", Kind.regular⟩,
            ⟨cstr "a.b", Kind.directory⟩]).map (fun n => n ++ cstr "/"))).getLast?
            = some last ∧
          (slot_writes (processdir sys_two_dirs (95 + 1) (cstr "/r/") 1 true
            table_root).trace).count 1 = 1 ∧
          (processdir sys_two_dirs (95 + 1) (cstr "/r/") 1 true table_root).children 1 =
            ⟨sys_two_dirs.add_watch (cstr "/r/" ++ last), cstr "/r/" ++ last⟩) :=
  ⟨⟨by decide, by decide, by decide⟩,
    (processdir_subdirectories sys_two_dirs 95 (cstr "/r/") 1 true table_root
      [⟨cstr "x.dat", Kind.regular⟩, ⟨cstr "a", Kind.directory⟩,
        ⟨cstr "a.dat", Kind.regular⟩, ⟨cstr "a.b", Kind.directory⟩]
      (by decide) (by decide) (by decide)).imp
      (fun _ h => ⟨h.1, h.2.2.2.1 rfl⟩)⟩

/-! ## The initialisation loop and the search for the parent slot, in general -/

theorem init_loop_spec (t : Table) (k : Nat) (i : Int) :
    (init_loop t k i).fd = if 0 ≤ i ∧ i < (k : Int) then -1 else (t i).fd := by
  induction k with
  | zero =>
    simp only [init_loop]
    rw [if_neg (by push_cast; omega)]
  | succ k ih =>
    simp only [init_loop, set_slot]
    by_cases h : i = (k : Int)
    · rw [if_pos h, if_pos (by push_cast; omega)]
    · rw [if_neg h, ih]
      by_cases h2 : 0 ≤ i ∧ i < (k : Int)
      · rw [if_pos h2, if_pos (by push_cast; omega)]
      · rw [if_neg h2, if_neg (by push_cast; omega)]

theorem find_slot_no_match (t : Table) (wd : Int) :
    ∀ k : Nat, (∀ j : Nat, j < k → (t j).fd ≠ wd) → (find_slot t wd k).1 = -1 := by
  intro k
  induction k with
  | zero => intro _; rfl
  | succ k ih =>
    intro h
    simp only [find_slot]
    rw [if_neg (h k (by omega))]
    exact ih (fun j hj => h j (by omega))

/-- For every table and every new-directory event whose handle no slot at depths
0 to `MAXDEPTH` holds, the handler reads `children[-1]`. -/
theorem unknown_handle_reads_before_table (sys : Sys) (ev : Event) (t : Table)
    (hlen : ev.len ≠ 0) (hdir : IN_CREATE &&& ev.mask ≠ 0 ∧ IN_ISDIR &&& ev.mask ≠ 0)
    (hno : ∀ j : Nat, j < MAXDEPTH + 1 → (t j).fd ≠ ev.wd) :
    Effect.slot_read (-1) ∈ (handle_event sys ev t).trace := by
  have hf := find_slot_no_match t ev.wd (MAXDEPTH + 1) hno
  unfold handle_event
  rw [if_neg hlen, if_pos hdir]
  simp only [hf]
  split <;> simp
end UPMU
